import Mathlib

/-!
Shallow embedding of the backup orchestration engine of the
`github_star_clone` repository (`src/backup_manager.py`,
`src/git_operations.py`, `src/database.py`, `src/models.py`).

Conventions of the embedding:
* Python `Optional[T]` becomes `Option T`; Python truthiness of optional
  strings (`if s:`) is `optStrTruthy` (false for `None` and for `""`).
* `datetime` values become `Dt`: a wall-clock value (`wall : Int`, some
  total encoding of the naive timestamp) plus an optional timezone.
  `replace(tzinfo=None)` keeps the wall-clock value and drops the zone,
  so the code's normalized comparison is a comparison of `wall` fields.
* Fallible external steps (git subprocess calls, WebDAV upload, sqlite
  writes) are driven by an environment record carrying, for each step,
  either its successful result or the exception message it raises; a
  theorem quantifying over the environment covers every fault pattern.
* `git clone --mirror` / `git fetch` are modelled as atomic: on failure
  the disk state is unchanged (a failed clone does not leave a mirror).
* Local disk state relevant to the claims is the presence of the repo's
  mirror (`Option MirrorD`); rclone/filesystem removal primitives
  (`shutil.rmtree` in `cleanup_mirror`) are modelled as succeeding.
-/

namespace StarBackup

/-- A `datetime` value: naive wall-clock reading plus optional timezone. -/
structure Dt where
  wall : Int
  tzinfo : Option Int
deriving DecidableEq

/-- Python truthiness of an `Optional[str]`: `None` and `""` are falsy. -/
def optStrTruthy : Option String → Bool
  | none => false
  | some s => !(s == "")

/-- Python `s[:100]` on a string (first 100 code points). -/
def truncate100 (s : String) : String := String.mk (s.toList.take 100)

/-- Does `needle` occur at the head of `haystack`? (Python `startswith`.) -/
def seqLead : List Char → List Char → Bool
  | [], _ => true
  | _ :: _, [] => false
  | a :: as, b :: bs => a == b && seqLead as bs

/-- Does `needle` occur contiguously inside `haystack`? (Python `in`.) -/
def seqHas (haystack needle : List Char) : Bool :=
  match haystack with
  | [] => needle.isEmpty
  | _ :: t => seqLead needle haystack || seqHas t needle

/-- Python `needle in haystack` on strings. -/
def containsSub (haystack needle : String) : Bool :=
  seqHas haystack.toList needle.toList

/-- Python `s.lower()`: lowercase character by character (identical to
`String.toLower`, written over the character list so that the kernel can
evaluate it; CJK characters are untouched by both). -/
def strLower (s : String) : String := String.mk (s.toList.map Char.toLower)

/-- Keyword list of `BackupManager._is_disk_error` (backup_manager.py:288). -/
def diskErrorKeywords : List String :=
  ["No space left on device", "no space left", "disk full", "not enough space",
   "磁盘空间不足", "out of disk space", "ENOSPC",
   "signal 9", "died of signal 9", "pack-objects died",
   "Cannot allocate memory", "out of memory", "oom", "内存不足"]

/-- Keyword list of `BackupManager._is_storage_full_error` (backup_manager.py:311). -/
def storageErrorKeywords : List String :=
  ["insufficient storage", "quota exceeded", "507", "storage full",
   "no space", "disk quota", "存储空间不足", "容量已满"]

/-- `BackupManager._is_disk_error`: lowercase the message and look for any
of the local disk/OOM keywords (each also lowercased). -/
def isDiskError (msg : String) : Bool :=
  let lower := strLower msg
  diskErrorKeywords.any (fun kw => containsSub lower (strLower kw))

/-- `BackupManager._is_storage_full_error`: lowercase the message and look
for any of the WebDAV storage keywords (each also lowercased). -/
def isStorageFullError (msg : String) : Bool :=
  let lower := strLower msg
  storageErrorKeywords.any (fun kw => containsSub lower (strLower kw))

/-- `models.BundleType`. -/
inductive BundleTypeT
  | full
  | incremental
deriving DecidableEq

/-- Python `BundleType(s)` for the strings produced by `GitOperations`
(always `"full"` or `"incremental"` at the call sites). -/
def bundleTypeOfString (s : String) : BundleTypeT :=
  if s == "full" then BundleTypeT.full else BundleTypeT.incremental

/-- The fields of `models.BackupResult` the claims are about. -/
structure ResultM where
  success : Bool
  skipped : Bool
  isDeleted : Bool
  errorMessage : Option String
deriving DecidableEq

/-- The fields of the prior `models.BackupRecord` consulted by
`_backup_upload_mode` (via `db.get_latest_backup`). -/
structure RecordM where
  commitHash : Option String
  backupTime : Option Dt
deriving DecidableEq

/-- The fields of a freshly written `models.BackupRecord` the claims are
about (`bundle_type` and `commit_hash` of `save_backup_record`). -/
structure RecordSaved where
  bundleType : BundleTypeT
  commitHash : Option String
deriving DecidableEq

/-- A local bare mirror on disk; `head` is its HEAD commit
(`None` for an empty repository, as in `_get_head_commit`). -/
structure MirrorD where
  head : Option String
deriving DecidableEq

/-- `git_operations.BundleResult`. -/
structure BundleResultM where
  success : Bool
  bundlePath : Option String
  bundleType : Option String
  commitHash : Option String
  fileSize : Option Nat
  errorMessage : Option String
deriving DecidableEq

/-- External-step behaviour for one `_backup_upload_mode` invocation.
An `Except.error e` entry means the corresponding call raises an
exception whose `str` is `e`. -/
structure UploadEnv where
  cloneRes : Except String Unit
  fetchedHead : Option String
  clonedHead : Option String
  commitReachableFn : String → Bool
  incrRes : Except String Unit
  fullRes : Except String Unit
  bundleSize : Nat
  uploadRes : Option String
  saveRes : Except String Unit
  cleanupTemp : Bool
  cleanupBundleRes : Except String Unit

/-- Modelled from the spec: `commitReachable(commit) → bool`. The source
calls `self.git.commit_exists(mirror_path, latest_backup.commit_hash)`
(backup_manager.py:566), but `commit_exists` is absent from the provided
`git_operations.py`; per the spec (§2, §4.3) it reports whether the given
commit is still reachable in the freshly synced mirror. It is modelled as
an abstract boolean oracle supplied by the environment. -/
def commitExists (env : UploadEnv) (c : String) : Bool :=
  env.commitReachableFn c

/-- Events emitted by the mirror/artifact lifecycle of one repository. -/
inductive Ev
  | sync
  | checkReachable (c : String)
  | archive
  | createIncr (base : String)
  | createFull
  | upload
  | cleanupMirror
deriving DecidableEq

/-- Which `return` (or caught exception) ended `_backup_upload_mode` /
`_backup_single_repo`. -/
inductive ExitTag
  | stale
  | unchanged
  | bundleErr
  | emptyBundle
  | uploadErr
  | saved
  | deleted
  | exn
deriving DecidableEq

/-- Everything observable about one per-repository backup invocation. -/
structure UploadOutcome where
  result : ResultM
  mirror : Option MirrorD
  records : List RecordSaved
  skipAdds : List (String × String)
  trace : List Ev
  exit : ExitTag
deriving DecidableEq

/-- A failed `BackupResult` carrying an exception message. -/
def failRes (e : String) : ResultM :=
  { success := false, skipped := false, isDeleted := false, errorMessage := some e }

/-- The skip entries added by `_backup_upload_mode`'s exception handler
(backup_manager.py:633-635): on a disk-space error the repository is
recorded with the fixed reason string. -/
def diskSkipAdds (repoName e : String) : List (String × String) :=
  if isDiskError e then [(repoName, "磁盘空间不足")] else []

/-- `GitOperations.clone_or_update_mirror` (git_operations.py:109-155):
with an existing mirror, fetch and report whether HEAD moved; without
one, clone and report `(True, head)`. Failure raises. -/
def cloneOrUpdateMirror (env : UploadEnv) (m0 : Option MirrorD) :
    Except String (Bool × Option String × MirrorD) :=
  match m0 with
  | some mir =>
    match env.cloneRes with
    | Except.error e => Except.error e
    | Except.ok _ =>
      let newHead := env.fetchedHead
      Except.ok (!(mir.head == newHead), newHead, { head := newHead })
  | none =>
    match env.cloneRes with
    | Except.error e => Except.error e
    | Except.ok _ => Except.ok (true, env.clonedHead, { head := env.clonedHead })

/-- `GitOperations.create_full_bundle` (git_operations.py:189-256):
fails if the mirror is missing or the `git bundle` subprocess fails;
otherwise returns a `full` bundle at the mirror's HEAD. Also returns
the lifecycle events it emits. -/
def createFullBundle (env : UploadEnv) (m : Option MirrorD) (repoName : String) :
    List Ev × BundleResultM :=
  match m with
  | none =>
    ([], { success := false, bundlePath := none, bundleType := none,
           commitHash := none, fileSize := none, errorMessage := some "镜像不存在" })
  | some mir =>
    match env.fullRes with
    | Except.ok _ =>
      ([Ev.createFull],
       { success := true,
         bundlePath := some (String.append (repoName.replace "/" "_") "_full.bundle"),
         bundleType := some "full", commitHash := mir.head,
         fileSize := some env.bundleSize, errorMessage := none })
    | Except.error e =>
      ([Ev.createFull],
       { success := false, bundlePath := none, bundleType := none,
         commitHash := none, fileSize := none,
         errorMessage := some (String.append "Bundle 创建失败: " e) })

/-- `GitOperations.create_incremental_bundle` (git_operations.py:258-332):
if HEAD equals the base commit there is nothing to bundle (success with no
path); a failing `git bundle` subprocess falls back to a full bundle. -/
def createIncrementalBundle (env : UploadEnv) (m : Option MirrorD)
    (repoName base : String) : List Ev × BundleResultM :=
  match m with
  | none =>
    ([], { success := false, bundlePath := none, bundleType := none,
           commitHash := none, fileSize := none, errorMessage := some "镜像不存在" })
  | some mir =>
    if mir.head == some base then
      ([], { success := true, bundlePath := none, bundleType := some "incremental",
             commitHash := mir.head, fileSize := none, errorMessage := some "无新提交" })
    else
      match env.incrRes with
      | Except.ok _ =>
        ([Ev.createIncr base],
         { success := true,
           bundlePath := some (String.append (repoName.replace "/" "_") "_incr.bundle"),
           bundleType := some "incremental", commitHash := mir.head,
           fileSize := some env.bundleSize, errorMessage := none })
      | Except.error _ =>
        let p := createFullBundle env m repoName
        (Ev.createIncr base :: p.1, p.2)

/-- The staleness short-circuit of `_backup_upload_mode`
(backup_manager.py:529-545): prior record present, repository has a
`pushed_at`, record has a `backup_time`, and after dropping timezone
information the naive comparison `backup_time >= pushed_at` holds. -/
def stalenessSkip (latestBackup : Option RecordM) (pushedAt : Option Dt) : Bool :=
  match latestBackup, pushedAt with
  | some lb, some pa =>
    match lb.backupTime with
    | some bt => decide (pa.wall ≤ bt.wall)
    | none => false
  | _, _ => false

/-- The artifact-strategy block of `_backup_upload_mode`
(backup_manager.py:564-578): with a prior record carrying a (truthy)
commit hash, check reachability first and either go incremental or
archive-then-full; otherwise create a full bundle. -/
def bundleStrategy (env : UploadEnv) (repoName : String)
    (latestBackup : Option RecordM) (m : Option MirrorD) : List Ev × BundleResultM :=
  match latestBackup with
  | some lb =>
    if optStrTruthy lb.commitHash then
      let c := lb.commitHash.getD ""
      if commitExists env c then
        let p := createIncrementalBundle env m repoName c
        (Ev.checkReachable c :: p.1, p.2)
      else
        let p := createFullBundle env m repoName
        (Ev.checkReachable c :: Ev.archive :: p.1, p.2)
    else
      createFullBundle env m repoName
  | none => createFullBundle env m repoName

/-- The exception raised by `cleanup_bundle` (backup_manager.py:617-618)
when temp cleanup is enabled and the unlink fails, else nothing. -/
def cleanupBundleExn (env : UploadEnv) : Option String :=
  if env.cleanupTemp then
    match env.cleanupBundleRes with
    | Except.error e => some e
    | Except.ok _ => none
  else none

/-- Lines 580-657 of `_backup_upload_mode`: everything after the bundle
strategy (upload, record write, metadata, temp cleanup) together with the
`finally` block, which — since the mirror was created by then — always
destroys the mirror. `trace0` is the trace accumulated so far. -/
def afterBundle (env : UploadEnv) (repoName : String) (trace0 : List Ev)
    (br : BundleResultM) : UploadOutcome :=
  if br.success = false then
    { result := { success := false, skipped := false, isDeleted := false,
                  errorMessage := br.errorMessage },
      mirror := none, records := [], skipAdds := [],
      trace := trace0 ++ [Ev.cleanupMirror], exit := ExitTag.bundleErr }
  else if optStrTruthy br.bundlePath = false then
    { result := { success := true, skipped := true, isDeleted := false,
                  errorMessage := none },
      mirror := none, records := [], skipAdds := [],
      trace := trace0 ++ [Ev.cleanupMirror], exit := ExitTag.emptyBundle }
  else
    match env.uploadRes with
    | none =>
      { result := failRes "上传到 WebDAV 失败", mirror := none, records := [],
        skipAdds := [], trace := trace0 ++ [Ev.upload, Ev.cleanupMirror],
        exit := ExitTag.uploadErr }
    | some _cloudPath =>
      let record : RecordSaved :=
        { bundleType := bundleTypeOfString (br.bundleType.getD ""),
          commitHash := br.commitHash }
      match env.saveRes with
      | Except.error e =>
        { result := failRes e, mirror := none, records := [],
          skipAdds := diskSkipAdds repoName e,
          trace := trace0 ++ [Ev.upload, Ev.cleanupMirror], exit := ExitTag.exn }
      | Except.ok _ =>
        match cleanupBundleExn env with
        | some e =>
          { result := failRes e, mirror := none, records := [record],
            skipAdds := diskSkipAdds repoName e,
            trace := trace0 ++ [Ev.upload, Ev.cleanupMirror], exit := ExitTag.exn }
        | none =>
          { result := { success := true, skipped := false, isDeleted := false,
                        errorMessage := none },
            mirror := none, records := [record], skipAdds := [],
            trace := trace0 ++ [Ev.upload, Ev.cleanupMirror], exit := ExitTag.saved }

/-- `BackupManager._backup_upload_mode` (backup_manager.py:506-657) for one
repository: staleness short-circuit, mirror sync, unchanged-mirror skip,
bundle strategy, then `afterBundle`; exceptions from the sync step reach
the handler with `mirror_created` still false, so the `finally` block does
not touch the (pre-existing or absent) mirror. -/
def backupUploadMode (env : UploadEnv) (repoName : String) (pushedAt : Option Dt)
    (latestBackup : Option RecordM) (m0 : Option MirrorD) : UploadOutcome :=
  if stalenessSkip latestBackup pushedAt then
    { result := { success := true, skipped := true, isDeleted := false,
                  errorMessage := none },
      mirror := m0, records := [], skipAdds := [], trace := [], exit := ExitTag.stale }
  else
    match cloneOrUpdateMirror env m0 with
    | Except.error e =>
      { result := failRes e, mirror := m0, records := [],
        skipAdds := diskSkipAdds repoName e, trace := [Ev.sync], exit := ExitTag.exn }
    | Except.ok (hasUpdates, _currentCommit, mir) =>
      if !hasUpdates && latestBackup.isSome then
        { result := { success := true, skipped := true, isDeleted := false,
                      errorMessage := none },
          mirror := none, records := [], skipAdds := [],
          trace := [Ev.sync, Ev.cleanupMirror, Ev.cleanupMirror],
          exit := ExitTag.unchanged }
      else
        let strat := bundleStrategy env repoName latestBackup (some mir)
        afterBundle env repoName (Ev.sync :: strat.1) strat.2

/-- External-step behaviour for `_backup_single_repo` before upload mode:
the GitHub existence check and the metadata refresh
(`latestInfo = some pa` means `get_repository_info` returned data whose
`pushed_at` is `pa`, replacing the stored one). -/
structure SingleEnv where
  existsRes : Except String Bool
  latestInfo : Option (Option Dt)
  upload : UploadEnv

/-- `BackupManager._backup_single_repo` (backup_manager.py:373-428) with
mount mode disabled: existence check (deleted repositories stop before any
mirror work), metadata refresh, then `_backup_upload_mode`. Exceptions
from the existence check are caught by the outer handler. -/
def backupSingleRepo (env : SingleEnv) (repoName : String) (pushedAt0 : Option Dt)
    (latestBackup : Option RecordM) (m0 : Option MirrorD) : UploadOutcome :=
  match env.existsRes with
  | Except.error e =>
    { result := failRes e, mirror := m0, records := [], skipAdds := [],
      trace := [], exit := ExitTag.exn }
  | Except.ok false =>
    { result := { success := true, skipped := false, isDeleted := true,
                  errorMessage := none },
      mirror := m0, records := [], skipAdds := [], trace := [],
      exit := ExitTag.deleted }
  | Except.ok true =>
    let pushedAt :=
      match env.latestInfo with
      | some pa => pa
      | none => pushedAt0
    backupUploadMode env.upload repoName pushedAt latestBackup m0

/-- Events emitted by the run loop of `run_backup`
(backup_manager.py:161-255). `checkpoint` is a `save_backup_progress`
write, `attempt` a `_backup_single_repo` call, `addSkip` an
`add_skipped_repo` insert, `cooldown` the 60-second inter-repository
sleep. Indices are the 1-based loop counter `i`. -/
inductive RunEvent
  | checkpoint (idx : Nat) (name : String)
  | attempt (idx : Nat) (name : String)
  | addSkip (name : String) (reason : String)
  | cooldown (idx : Nat)
deriving DecidableEq

/-- The loop index an event carries, if any. -/
def eIdx : RunEvent → Option Nat
  | RunEvent.checkpoint i _ => some i
  | RunEvent.attempt i _ => some i
  | RunEvent.cooldown i => some i
  | RunEvent.addSkip _ _ => none

/-- The mutable state of one `run_backup` loop: the run-scoped
`storage_full` flag, the summary counters, and the ordered event log. -/
structure RunState where
  storageFull : Bool
  successCount : Nat
  skippedCount : Nat
  failedCount : Nat
  deletedCount : Nat
  events : List RunEvent
deriving DecidableEq

/-- The initial loop state (backup_manager.py:104, 162). -/
def initRunState : RunState :=
  { storageFull := false, successCount := 0, skippedCount := 0,
    failedCount := 0, deletedCount := 0, events := [] }

/-- Lines 213-237 of `run_backup`: update the summary counters from one
repository's result and, on failure, classify the error message —
disk errors add a persisted skip entry with the truncated message,
storage-full errors raise the run-scoped flag. An empty error message is
falsy in Python and classifies as nothing. -/
def classifyUpdate (s : RunState) (r : ResultM) (name : String) : RunState :=
  if r.isDeleted then { s with deletedCount := s.deletedCount + 1 }
  else if r.skipped then { s with skippedCount := s.skippedCount + 1 }
  else if r.success then { s with successCount := s.successCount + 1 }
  else
    let s1 := { s with failedCount := s.failedCount + 1 }
    match r.errorMessage with
    | none => s1
    | some msg =>
      if msg == "" then s1
      else
        let s2 :=
          if isDiskError msg then
            { s1 with events := s1.events ++
                [RunEvent.addSkip name (String.append "磁盘空间不足: " (truncate100 msg))] }
          else s1
        if isStorageFullError msg then { s2 with storageFull := true } else s2

/-- A genuinely backed-up repository (backup_manager.py:252). -/
def goodSuccess (r : ResultM) : Bool :=
  r.success && !r.skipped && !r.isDeleted

/-- Lines 211-255 of `run_backup` after `_backup_single_repo` returns:
classify the result, then incur the fixed cooldown only for a genuine
success that is not the last repository, with the storage flag clear. -/
def afterResult (s : RunState) (r : ResultM) (name : String) (i total : Nat) : RunState :=
  if goodSuccess r && decide (i < total) && !(classifyUpdate s r name).storageFull then
    { classifyUpdate s r name with
        events := (classifyUpdate s r name).events ++ [RunEvent.cooldown i] }
  else classifyUpdate s r name

/-- The `for i, repo in enumerate(unique_repos[start_index:], start_index + 1)`
loop of `run_backup` (backup_manager.py:164-255). `o` gives each
repository's `_backup_single_repo` result; `i` is the 1-based counter.
A set storage flag breaks before anything else; skip-set repositories are
counted skipped without a checkpoint write; otherwise the checkpoint is
persisted, the repository attempted, and the result folded in. -/
def runLoop (o : String → ResultM) (skipSet : List String) (total : Nat) :
    List String → Nat → RunState → RunState
  | [], _, s => s
  | name :: rest, i, s =>
    if s.storageFull then s
    else if name ∈ skipSet then
      runLoop o skipSet total rest (i + 1) { s with skippedCount := s.skippedCount + 1 }
    else
      runLoop o skipSet total rest (i + 1)
        (afterResult
          { s with events := s.events ++
              [RunEvent.checkpoint i name, RunEvent.attempt i name] }
          (o name) name i total)

/-- Lines 131-143 of `run_backup`: resolve the checkpointed
`last_repo_full_name` against the freshly rebuilt queue; the resumed
start index is the matched position plus one, or zero when absent. -/
def computeStartIndex (names : List String) (lastRepo : String) : Nat :=
  match names.findIdx? (fun n => n == lastRepo) with
  | some idx => idx + 1
  | none => 0

/-- A whole resumed run over the queue (backup_manager.py:164): the slice
`unique_repos[start_index:]` enumerated from `start_index + 1`. -/
def runFrom (o : String → ResultM) (skipSet : List String) (names : List String)
    (startIndex : Nat) : RunState :=
  runLoop o skipSet names.length (names.drop startIndex) (startIndex + 1) initRunState

/-- The persistence-side effects of `_deduplicate_repos`: the repository
catalog rows (by `full_name`, upsert order) and the `star_sources`
edges, which are unique per (repository, account) pair
(database.py:306-322, `INSERT OR IGNORE` with `UNIQUE(repo_id, github_user)`). -/
structure DedupDB where
  reposSaved : List String
  starEdges : List (String × String)
deriving DecidableEq

/-- `Database.save_repository` (database.py:164-222) restricted to the
catalog key: upsert by `full_name` (the row id is determined by the
unique `full_name`, so edges are modelled as keyed by name). -/
def saveRepositoryD (db : DedupDB) (name : String) : DedupDB :=
  if name ∈ db.reposSaved then db
  else { db with reposSaved := db.reposSaved ++ [name] }

/-- `Database.add_star_source` (database.py:306-322): insert the
(repository, account) edge unless it already exists. -/
def addStarSource (db : DedupDB) (name user : String) : DedupDB :=
  if (name, user) ∈ db.starEdges then db
  else { db with starEdges := db.starEdges ++ [(name, user)] }

/-- The loop body of `BackupManager._deduplicate_repos`
(backup_manager.py:345-371): `seen` is the key list of the
insertion-ordered `repo_map`; every pair is upserted into the catalog and
recorded as a star-source edge, but only a first-seen `full_name` joins
the queue. -/
def dedupGo : List (String × String) → List String → DedupDB → List String × DedupDB
  | [], seen, db => (seen, db)
  | (name, user) :: rest, seen, db =>
    let seen2 := if name ∈ seen then seen else seen ++ [name]
    let db2 := addStarSource (saveRepositoryD db name) name user
    dedupGo rest seen2 db2

/-- `BackupManager._deduplicate_repos`: returns the deduplicated queue
(as `full_name`s, the keys of `repo_map` in insertion order) and the
updated persistence state. -/
def deduplicateRepos (rs : List (String × String)) (db : DedupDB) :
    List String × DedupDB :=
  dedupGo rs [] db

/-- Reference characterization of first-occurrence deduplication: keep
each element's first occurrence, in order of those first occurrences. -/
def firstOccurrences : List String → List String
  | [] => []
  | x :: xs => x :: firstOccurrences (xs.filter (fun y => !(y == x)))
termination_by l => l.length
decreasing_by
  simp only [List.length_cons]
  exact Nat.lt_succ_of_le (List.length_filter_le _ _)

/-- The exact condition under which `classifyUpdate` raises the run-scoped
`storage_full` flag (backup_manager.py:224-233): a non-deleted,
non-skipped failure whose (truthy) error message matches the
remote-storage keyword list. -/
def storageTrig (r : ResultM) : Bool :=
  !r.isDeleted && !r.skipped && !r.success &&
    (match r.errorMessage with
     | none => false
     | some msg => !(msg == "") && isStorageFullError msg)

/-- A result that reaches the failure-classification block with message
`msg`: not deleted, not skipped, not successful, and a truthy message. -/
def failedWithMsg (r : ResultM) (msg : String) : Prop :=
  r.isDeleted = false ∧ r.skipped = false ∧ r.success = false ∧
    r.errorMessage = some msg ∧ msg ≠ ""

/-- The skip-entry reason recorded for a disk-space failure
(backup_manager.py:231). -/
def diskSkipReason (msg : String) : String :=
  String.append "磁盘空间不足: " (truncate100 msg)

/-- A sample environment for concrete instantiations. -/
def envHappy : UploadEnv :=
  { cloneRes := Except.ok (), fetchedHead := some "h1", clonedHead := some "h1",
    commitReachableFn := fun _ => true, incrRes := Except.ok (),
    fullRes := Except.ok (), bundleSize := 7, uploadRes := some "/b/o/r/x.bundle",
    saveRes := Except.ok (), cleanupTemp := true, cleanupBundleRes := Except.ok () }

/-- An environment in which the prior commit is unreachable in the mirror
(history was force-pushed). -/
def envForce : UploadEnv :=
  { cloneRes := Except.ok (), fetchedHead := some "h2", clonedHead := some "h2",
    commitReachableFn := fun _ => false, incrRes := Except.ok (),
    fullRes := Except.ok (), bundleSize := 9, uploadRes := some "/b/o/r/y.bundle",
    saveRes := Except.ok (), cleanupTemp := false, cleanupBundleRes := Except.ok () }

/-- A per-repository result that only skips (used for concrete runs). -/
def oSkipAll : String → ResultM :=
  fun _ => { success := true, skipped := true, isDeleted := false, errorMessage := none }

/-- A per-repository result that genuinely succeeds everywhere. -/
def oGood : String → ResultM :=
  fun _ => { success := true, skipped := false, isDeleted := false, errorMessage := none }

/-- A run in which `a/x` fails with the canonical disk-full message and
every other repository would succeed. -/
def oDiskFull : String → ResultM :=
  fun nm => if nm == "a/x" then failRes "No space left on device"
    else { success := true, skipped := false, isDeleted := false, errorMessage := none }

/-- A run in which every repository fails with a local `ENOSPC` error. -/
def oEnospc : String → ResultM := fun _ => failRes "ENOSPC"

/-- A run in which every repository fails with a remote quota error. -/
def oQuota : String → ResultM := fun _ => failRes "quota exceeded"

/-- The key list built by the fold, in accumulator form. -/
def firstOccAux : List String → List String → List String
  | seen, [] => seen
  | seen, n :: ns => firstOccAux (if n ∈ seen then seen else seen ++ [n]) ns

/-! Helper lemmas about the post-strategy tail of `_backup_upload_mode`. -/

theorem afterBundle_mirror (env : UploadEnv) (repoName : String) (trace0 : List Ev)
    (br : BundleResultM) : (afterBundle env repoName trace0 br).mirror = none := by
  unfold afterBundle
  split
  · rfl
  split
  · rfl
  split
  · rfl
  split
  · rfl
  split
  · rfl
  · rfl

theorem afterBundle_exit_ne_unchanged (env : UploadEnv) (repoName : String)
    (trace0 : List Ev) (br : BundleResultM) :
    (afterBundle env repoName trace0 br).exit ≠ ExitTag.unchanged := by
  unfold afterBundle
  split
  · simp
  split
  · simp
  split
  · simp
  split
  · simp
  split
  · simp
  · simp

theorem afterBundle_trace_decomp (env : UploadEnv) (repoName : String)
    (trace0 : List Ev) (br : BundleResultM) :
    ∃ t, (afterBundle env repoName trace0 br).trace = trace0 ++ t ∧
      ∀ e ∈ t, e = Ev.upload ∨ e = Ev.cleanupMirror := by
  unfold afterBundle
  split
  · exact ⟨[Ev.cleanupMirror], rfl, by simp⟩
  split
  · exact ⟨[Ev.cleanupMirror], rfl, by simp⟩
  split
  · exact ⟨[Ev.upload, Ev.cleanupMirror], rfl, by simp⟩
  split
  · exact ⟨[Ev.upload, Ev.cleanupMirror], rfl, by simp⟩
  split
  · exact ⟨[Ev.upload, Ev.cleanupMirror], rfl, by simp⟩
  · exact ⟨[Ev.upload, Ev.cleanupMirror], rfl, by simp⟩

theorem afterBundle_records_type (env : UploadEnv) (repoName : String)
    (trace0 : List Ev) (br : BundleResultM) :
    ∀ r ∈ (afterBundle env repoName trace0 br).records,
      r.bundleType = bundleTypeOfString (br.bundleType.getD "") := by
  unfold afterBundle
  split
  · simp
  split
  · simp
  split
  · simp
  split
  · simp
  split
  · intro r hr
    simp only [List.mem_singleton] at hr
    subst hr
    rfl
  · intro r hr
    simp only [List.mem_singleton] at hr
    subst hr
    rfl

theorem backupUploadMode_mirror (env : UploadEnv) (repoName : String)
    (pushedAt : Option Dt) (latestBackup : Option RecordM) (m0 : Option MirrorD) :
    (backupUploadMode env repoName pushedAt latestBackup m0).mirror = none ∨
    (backupUploadMode env repoName pushedAt latestBackup m0).mirror = m0 := by
  unfold backupUploadMode
  split
  · exact Or.inr rfl
  split
  · exact Or.inr rfl
  split
  · exact Or.inl rfl
  · exact Or.inl (afterBundle_mirror _ _ _ _)

/-- Claim C2: for every invocation of the per-repository backup operation
(`_backup_single_repo` in upload mode), and for every exit path —
success, skip, deleted, or an exception at any modelled step — no local
mirror created during that invocation remains on disk afterwards: the
final mirror state is either empty or exactly the mirror that already
existed before the call, and an invocation starting with no mirror always
ends with no mirror. -/
theorem backup_single_leaves_no_new_mirror :
    (∀ (env : SingleEnv) (repoName : String) (pushedAt0 : Option Dt)
        (latestBackup : Option RecordM) (m0 : Option MirrorD),
      (backupSingleRepo env repoName pushedAt0 latestBackup m0).mirror = none ∨
      (backupSingleRepo env repoName pushedAt0 latestBackup m0).mirror = m0) ∧
    (∀ (env : SingleEnv) (repoName : String) (pushedAt0 : Option Dt)
        (latestBackup : Option RecordM),
      (backupSingleRepo env repoName pushedAt0 latestBackup none).mirror = none) := by
  constructor
  · intro env repoName pushedAt0 latestBackup m0
    unfold backupSingleRepo
    match h : env.existsRes with
    | Except.error e => exact Or.inr rfl
    | Except.ok false => exact Or.inr rfl
    | Except.ok true => exact backupUploadMode_mirror _ _ _ _ _
  · intro env repoName pushedAt0 latestBackup
    unfold backupSingleRepo
    match h : env.existsRes with
    | Except.error e => rfl
    | Except.ok false => rfl
    | Except.ok true =>
      rcases backupUploadMode_mirror env.upload repoName
        (match env.latestInfo with | some pa => pa | none => pushedAt0)
        latestBackup none with h2 | h2 <;> exact h2

/-- Claim C6: a repository with a prior backup record whose backup time —
after both timestamps are normalized to a naive representation — is at
least the repository's last-push time is skipped by `_backup_upload_mode`
before any mirror-engine work: the result is a successful skip, the event
trace is empty (no clone, fetch, or bundle operation), and the exit is
the staleness short-circuit. -/
theorem staleness_skips_without_mirror_ops (env : UploadEnv) (repoName : String)
    (lb : RecordM) (bt : Dt) (pa : Dt) (m0 : Option MirrorD)
    (hbt : lb.backupTime = some bt) (hge : pa.wall ≤ bt.wall) :
    (backupUploadMode env repoName (some pa) (some lb) m0).result.skipped = true ∧
    (backupUploadMode env repoName (some pa) (some lb) m0).result.success = true ∧
    (backupUploadMode env repoName (some pa) (some lb) m0).trace = [] ∧
    (backupUploadMode env repoName (some pa) (some lb) m0).exit = ExitTag.stale := by
  have hs : stalenessSkip (some lb) (some pa) = true := by
    simp only [stalenessSkip, hbt]
    exact decide_eq_true hge
  unfold backupUploadMode
  rw [hs]
  exact ⟨rfl, rfl, rfl, rfl⟩



/-- Witness for C6: a concrete repository whose prior backup at wall time 5
is newer than its last push at wall time 3 is skipped with an empty trace. -/
theorem staleness_skips_without_mirror_ops_witness :
    (backupUploadMode envHappy "o/r" (some { wall := 3, tzinfo := some 0 })
      (some { commitHash := some "c0", backupTime := some { wall := 5, tzinfo := none } })
      none).result.skipped = true ∧
    (backupUploadMode envHappy "o/r" (some { wall := 3, tzinfo := some 0 })
      (some { commitHash := some "c0", backupTime := some { wall := 5, tzinfo := none } })
      none).result.success = true ∧
    (backupUploadMode envHappy "o/r" (some { wall := 3, tzinfo := some 0 })
      (some { commitHash := some "c0", backupTime := some { wall := 5, tzinfo := none } })
      none).trace = [] ∧
    (backupUploadMode envHappy "o/r" (some { wall := 3, tzinfo := some 0 })
      (some { commitHash := some "c0", backupTime := some { wall := 5, tzinfo := none } })
      none).exit = ExitTag.stale :=
  staleness_skips_without_mirror_ops envHappy "o/r"
    { commitHash := some "c0", backupTime := some { wall := 5, tzinfo := none } }
    { wall := 5, tzinfo := none } { wall := 3, tzinfo := some 0 } none rfl (by decide)

theorem afterBundle_records_of_fail (env : UploadEnv) (repoName : String)
    (trace0 : List Ev) (br : BundleResultM) (h : br.success = false) :
    (afterBundle env repoName trace0 br).records = [] := by
  unfold afterBundle
  simp [h]

/-- Claim C3: when a prior backup record's commit hash is not reachable in
the freshly synced mirror, `_backup_upload_mode` checks reachability
explicitly and then, in order, archives the repository's existing remote
artifacts and creates a full bundle; no incremental bundle is ever
attempted, and any backup record written by this invocation has bundle
type `full`. -/
theorem forcepush_archives_then_creates_full (env : UploadEnv) (repoName : String)
    (pushedAt : Option Dt) (lb : RecordM) (c : String) (m0 : Option MirrorD)
    (hd : Option String) (mir : MirrorD)
    (hch : lb.commitHash = some c) (hc : c ≠ "")
    (hreach : commitExists env c = false)
    (hstale : stalenessSkip (some lb) pushedAt = false)
    (hclone : cloneOrUpdateMirror env m0 = Except.ok (true, hd, mir)) :
    List.Sublist [Ev.checkReachable c, Ev.archive, Ev.createFull]
      (backupUploadMode env repoName pushedAt (some lb) m0).trace ∧
    (∀ b, Ev.createIncr b ∉ (backupUploadMode env repoName pushedAt (some lb) m0).trace) ∧
    (∀ r ∈ (backupUploadMode env repoName pushedAt (some lb) m0).records,
      r.bundleType = BundleTypeT.full) := by
  have hbeq : (c == "") = false := by
    simp [hc]
  have hstrat : bundleStrategy env repoName (some lb) (some mir) =
      (Ev.checkReachable c :: Ev.archive :: (createFullBundle env (some mir) repoName).1,
       (createFullBundle env (some mir) repoName).2) := by
    simp only [bundleStrategy, hch, optStrTruthy, hbeq, Bool.not_false, if_true,
      Option.getD_some, hreach, Bool.false_eq_true, if_false]
  have hmode : backupUploadMode env repoName pushedAt (some lb) m0 =
      afterBundle env repoName
        (Ev.sync :: Ev.checkReachable c :: Ev.archive ::
          (createFullBundle env (some mir) repoName).1)
        (createFullBundle env (some mir) repoName).2 := by
    unfold backupUploadMode
    simp only [hstale, Bool.false_eq_true, if_false, hclone, Bool.not_true,
      Bool.false_and, hstrat]
  have hfull1 : (createFullBundle env (some mir) repoName).1 = [Ev.createFull] := by
    unfold createFullBundle
    match h : env.fullRes with
    | Except.ok u => rfl
    | Except.error e => rfl
  rw [hmode, hfull1]
  obtain ⟨t, htr, hmem⟩ := afterBundle_trace_decomp env repoName
    [Ev.sync, Ev.checkReachable c, Ev.archive, Ev.createFull]
    (createFullBundle env (some mir) repoName).2
  rw [htr]
  refine ⟨?_, ?_, ?_⟩
  · exact List.Sublist.trans
      (List.Sublist.cons Ev.sync (List.Sublist.refl _))
      (List.sublist_append_left _ t)
  · intro b hb
    rcases List.mem_append.mp hb with h1 | h1
    · simp at h1
    · rcases hmem _ h1 with h2 | h2 <;> simp at h2
  · intro r hr
    match hres : env.fullRes with
    | Except.ok u =>
      have hbr : (createFullBundle env (some mir) repoName).2.bundleType = some "full" := by
        unfold createFullBundle
        rw [hres]
      have := afterBundle_records_type env repoName
        [Ev.sync, Ev.checkReachable c, Ev.archive, Ev.createFull]
        (createFullBundle env (some mir) repoName).2 r hr
      rw [hbr] at this
      exact this
    | Except.error e =>
      have hbr : (createFullBundle env (some mir) repoName).2.success = false := by
        unfold createFullBundle
        rw [hres]
      rw [afterBundle_records_of_fail env repoName _ _ hbr] at hr
      simp at hr



/-- Witness for C3: a concrete force-pushed repository archives, creates a
full bundle, and never attempts an incremental bundle. -/
theorem forcepush_archives_then_creates_full_witness :
    List.Sublist [Ev.checkReachable "c0", Ev.archive, Ev.createFull]
      (backupUploadMode envForce "o/r" none
        (some { commitHash := some "c0", backupTime := none }) none).trace ∧
    (∀ b, Ev.createIncr b ∉
      (backupUploadMode envForce "o/r" none
        (some { commitHash := some "c0", backupTime := none }) none).trace) ∧
    (∀ r ∈ (backupUploadMode envForce "o/r" none
        (some { commitHash := some "c0", backupTime := none }) none).records,
      r.bundleType = BundleTypeT.full) :=
  forcepush_archives_then_creates_full envForce "o/r" none
    { commitHash := some "c0", backupTime := none } "c0" none
    (some "h2") { head := some "h2" } rfl (by decide) rfl rfl rfl

/-- Claim C8: when the freshly synced mirror's HEAD equals the prior
record's commit (the incremental bundle has no content), the repository's
outcome is a successful skip: no backup record is written, and folding
this result into the run summary leaves the failed count unchanged while
incrementing the skipped count. -/
theorem empty_incremental_yields_skip (env : UploadEnv) (repoName : String)
    (pushedAt : Option Dt) (lb : RecordM) (c : String) (m0 : Option MirrorD)
    (hd : Option String) (mir : MirrorD)
    (hch : lb.commitHash = some c) (hc : c ≠ "")
    (hreach : commitExists env c = true)
    (hstale : stalenessSkip (some lb) pushedAt = false)
    (hclone : cloneOrUpdateMirror env m0 = Except.ok (true, hd, mir))
    (hhead : mir.head = some c) :
    (backupUploadMode env repoName pushedAt (some lb) m0).result.skipped = true ∧
    (backupUploadMode env repoName pushedAt (some lb) m0).result.success = true ∧
    (backupUploadMode env repoName pushedAt (some lb) m0).records = [] ∧
    (backupUploadMode env repoName pushedAt (some lb) m0).exit = ExitTag.emptyBundle ∧
    (∀ (s : RunState) (name : String),
      (classifyUpdate s (backupUploadMode env repoName pushedAt (some lb) m0).result
        name).failedCount = s.failedCount ∧
      (classifyUpdate s (backupUploadMode env repoName pushedAt (some lb) m0).result
        name).skippedCount = s.skippedCount + 1) := by
  have hbeq : (c == "") = false := by
    simp [hc]
  have hincr : createIncrementalBundle env (some mir) repoName c =
      ([], { success := true, bundlePath := none, bundleType := some "incremental",
             commitHash := mir.head, fileSize := none, errorMessage := some "无新提交" }) := by
    unfold createIncrementalBundle
    simp [hhead]
  have hstrat : bundleStrategy env repoName (some lb) (some mir) =
      ([Ev.checkReachable c],
       { success := true, bundlePath := none, bundleType := some "incremental",
         commitHash := mir.head, fileSize := none, errorMessage := some "无新提交" }) := by
    simp only [bundleStrategy, hch, optStrTruthy, hbeq, Bool.not_false, if_true,
      Option.getD_some, hreach, if_true, hincr]
  have hmode : backupUploadMode env repoName pushedAt (some lb) m0 =
      { result := { success := true, skipped := true, isDeleted := false,
                    errorMessage := none },
        mirror := none, records := [], skipAdds := [],
        trace := [Ev.sync, Ev.checkReachable c, Ev.cleanupMirror],
        exit := ExitTag.emptyBundle } := by
    unfold backupUploadMode
    simp only [hstale, Bool.false_eq_true, if_false, hclone, Bool.not_true,
      Bool.false_and, hstrat]
    rfl
  rw [hmode]
  refine ⟨rfl, rfl, rfl, rfl, ?_⟩
  intro s name
  constructor <;> rfl

/-- Witness for C8: a freshly cloned mirror whose HEAD is still the prior
record's commit yields a skip and writes no record. -/
theorem empty_incremental_yields_skip_witness :
    (backupUploadMode envHappy "o/r" none
      (some { commitHash := some "h1", backupTime := none }) none).result.skipped = true ∧
    (backupUploadMode envHappy "o/r" none
      (some { commitHash := some "h1", backupTime := none }) none).result.success = true ∧
    (backupUploadMode envHappy "o/r" none
      (some { commitHash := some "h1", backupTime := none }) none).records = [] ∧
    (backupUploadMode envHappy "o/r" none
      (some { commitHash := some "h1", backupTime := none }) none).exit =
        ExitTag.emptyBundle ∧
    (∀ (s : RunState) (name : String),
      (classifyUpdate s (backupUploadMode envHappy "o/r" none
        (some { commitHash := some "h1", backupTime := none }) none).result
        name).failedCount = s.failedCount ∧
      (classifyUpdate s (backupUploadMode envHappy "o/r" none
        (some { commitHash := some "h1", backupTime := none }) none).result
        name).skippedCount = s.skippedCount + 1) :=
  empty_incremental_yields_skip envHappy "o/r" none
    { commitHash := some "h1", backupTime := none } "h1" none
    (some "h1") { head := some "h1" } rfl (by decide) rfl rfl rfl rfl

/-- Claim C10: a mirror sync with no mirror on local disk (a fresh clone)
always reports updates; the unchanged-mirror skip exit can only happen
when a pre-existing mirror was fetched, its HEAD did not move, and a
prior backup record exists; with no prior record that exit is
impossible. -/
theorem fresh_clone_always_has_updates :
    (∀ (env : UploadEnv), env.cloneRes = Except.ok () →
      cloneOrUpdateMirror env none =
        Except.ok (true, env.clonedHead, { head := env.clonedHead })) ∧
    (∀ (env : UploadEnv) (repoName : String) (pushedAt : Option Dt)
        (latestBackup : Option RecordM) (m0 : Option MirrorD),
      (backupUploadMode env repoName pushedAt latestBackup m0).exit = ExitTag.unchanged →
      ∃ mir, m0 = some mir ∧ env.fetchedHead = mir.head ∧ latestBackup.isSome = true) ∧
    (∀ (env : UploadEnv) (repoName : String) (pushedAt : Option Dt)
        (m0 : Option MirrorD),
      (backupUploadMode env repoName pushedAt none m0).exit ≠ ExitTag.unchanged) := by
  have key : ∀ (env : UploadEnv) (repoName : String) (pushedAt : Option Dt)
      (latestBackup : Option RecordM) (m0 : Option MirrorD),
      (backupUploadMode env repoName pushedAt latestBackup m0).exit = ExitTag.unchanged →
      ∃ mir, m0 = some mir ∧ env.fetchedHead = mir.head ∧ latestBackup.isSome = true := by
    intro env repoName pushedAt latestBackup m0 hexit
    unfold backupUploadMode at hexit
    by_cases hs : stalenessSkip latestBackup pushedAt
    · simp [hs] at hexit
    · simp only [hs, Bool.false_eq_true, if_false] at hexit
      match hclone : cloneOrUpdateMirror env m0 with
      | Except.error e =>
        rw [hclone] at hexit
        simp at hexit
      | Except.ok (hasUpdates, cur, mir2) =>
        rw [hclone] at hexit
        simp only at hexit
        by_cases hcond : (!hasUpdates && latestBackup.isSome) = true
        · match m0 with
          | none =>
            have : hasUpdates = true := by
              unfold cloneOrUpdateMirror at hclone
              match hc : env.cloneRes with
              | Except.error e => rw [hc] at hclone; exact absurd hclone (by simp)
              | Except.ok u =>
                rw [hc] at hclone
                have := (Except.ok.injEq _ _).mp hclone
                exact (Prod.mk.injEq _ _ _ _).mp this |>.1.symm
            rw [this] at hcond
            simp at hcond
          | some mir0 =>
            refine ⟨mir0, rfl, ?_, (Bool.and_eq_true _ _).mp hcond |>.2⟩
            have hhu : hasUpdates = !(mir0.head == env.fetchedHead) := by
              unfold cloneOrUpdateMirror at hclone
              match hc : env.cloneRes with
              | Except.error e => rw [hc] at hclone; exact absurd hclone (by simp)
              | Except.ok u =>
                rw [hc] at hclone
                have := (Except.ok.injEq _ _).mp hclone
                exact ((Prod.mk.injEq _ _ _ _).mp this).1.symm
            have hfalse : hasUpdates = false := by
              have := (Bool.and_eq_true _ _).mp hcond |>.1
              cases hhu2 : hasUpdates
              · rfl
              · rw [hhu2] at this; simp at this
            rw [hfalse] at hhu
            have : (mir0.head == env.fetchedHead) = true := by
              cases hbe : (mir0.head == env.fetchedHead)
              · rw [hbe] at hhu; simp at hhu
              · rfl
            exact (beq_iff_eq.mp this).symm
        · rw [if_neg (by simpa using hcond)] at hexit
          exact absurd hexit (afterBundle_exit_ne_unchanged _ _ _ _)
  refine ⟨?_, key, ?_⟩
  · intro env hc
    unfold cloneOrUpdateMirror
    rw [hc]
  · intro env repoName pushedAt m0 hexit
    obtain ⟨mir, _, _, habs⟩ := key env repoName pushedAt none m0 hexit
    simp at habs

/-- Witness for C10: with the sample environment, a fresh clone reports
updates with the cloned head, and a first-ever backup (no prior record)
never takes the unchanged-mirror skip exit. -/
theorem fresh_clone_always_has_updates_witness :
    cloneOrUpdateMirror envHappy none =
      Except.ok (true, some "h1", { head := some "h1" }) ∧
    (backupUploadMode envHappy "o/r" none none none).exit ≠ ExitTag.unchanged :=
  ⟨fresh_clone_always_has_updates.1 envHappy rfl,
   fresh_clone_always_has_updates.2.2 envHappy "o/r" none none⟩

/-! Structural lemmas about the `run_backup` loop. -/

theorem runLoop_of_storageFull (o : String → ResultM) (sk : List String) (total : Nat)
    (q : List String) (i : Nat) (s : RunState) (h : s.storageFull = true) :
    runLoop o sk total q i s = s := by
  cases q with
  | nil => rfl
  | cons name rest => simp [runLoop, h]

theorem classifyUpdate_events (s : RunState) (r : ResultM) (name : String) :
    ∃ extra, (classifyUpdate s r name).events = s.events ++ extra ∧
      ∀ e ∈ extra, ∃ n reason, e = RunEvent.addSkip n reason := by
  unfold classifyUpdate
  rcases r with ⟨su, sk2, del, em⟩
  cases del
  · cases sk2
    · cases su
      · cases em with
        | none => exact ⟨[], by simp, by simp⟩
        | some msg =>
          cases hm : (msg == "") with
          | true => exact ⟨[], by simp [hm], by simp⟩
          | false =>
            cases hdk : isDiskError msg with
            | true =>
              cases hst : isStorageFullError msg with
              | true =>
                exact ⟨[RunEvent.addSkip name
                  (String.append "磁盘空间不足: " (truncate100 msg))],
                  by simp [hm, hdk, hst], by simp⟩
              | false =>
                exact ⟨[RunEvent.addSkip name
                  (String.append "磁盘空间不足: " (truncate100 msg))],
                  by simp [hm, hdk, hst], by simp⟩
            | false =>
              cases hst : isStorageFullError msg with
              | true => exact ⟨[], by simp [hm, hdk, hst], by simp⟩
              | false => exact ⟨[], by simp [hm, hdk, hst], by simp⟩
      · exact ⟨[], by simp, by simp⟩
    · exact ⟨[], by simp, by simp⟩
  · exact ⟨[], by simp, by simp⟩

theorem classifyUpdate_storageFull (s : RunState) (r : ResultM) (name : String) :
    (classifyUpdate s r name).storageFull = (s.storageFull || storageTrig r) := by
  unfold classifyUpdate storageTrig
  rcases r with ⟨su, sk2, del, em⟩
  cases del
  · cases sk2
    · cases su
      · cases em with
        | none => simp
        | some msg =>
          cases hm : (msg == "") with
          | true => simp [hm]
          | false =>
            cases hdk : isDiskError msg with
            | true =>
              cases hst : isStorageFullError msg with
              | true => simp [hm, hdk, hst]
              | false => simp [hm, hdk, hst]
            | false =>
              cases hst : isStorageFullError msg with
              | true => simp [hm, hdk, hst]
              | false => simp [hm, hdk, hst]
      · simp
    · simp
  · simp

theorem runLoop_cons (o : String → ResultM) (sk : List String) (total : Nat)
    (name : String) (rest : List String) (i : Nat) (s : RunState) :
    runLoop o sk total (name :: rest) i s =
      if s.storageFull then s
      else if name ∈ sk then
        runLoop o sk total rest (i + 1) { s with skippedCount := s.skippedCount + 1 }
      else
        runLoop o sk total rest (i + 1)
          (afterResult
            { s with events := s.events ++
                [RunEvent.checkpoint i name, RunEvent.attempt i name] }
            (o name) name i total) := rfl

theorem runLoop_cons_skip (o : String → ResultM) (sk : List String) (total : Nat)
    (name : String) (rest : List String) (i : Nat) (s : RunState)
    (h1 : s.storageFull = false) (h2 : name ∈ sk) :
    runLoop o sk total (name :: rest) i s =
      runLoop o sk total rest (i + 1) { s with skippedCount := s.skippedCount + 1 } := by
  rw [runLoop_cons, if_neg (by simp [h1]), if_pos h2]

theorem runLoop_cons_proc (o : String → ResultM) (sk : List String) (total : Nat)
    (name : String) (rest : List String) (i : Nat) (s : RunState)
    (h1 : s.storageFull = false) (h2 : name ∉ sk) :
    runLoop o sk total (name :: rest) i s =
      runLoop o sk total rest (i + 1)
        (afterResult
          { s with events := s.events ++
              [RunEvent.checkpoint i name, RunEvent.attempt i name] }
          (o name) name i total) := by
  rw [runLoop_cons, if_neg (by simp [h1]), if_neg h2]

theorem afterResult_eq_pos (s : RunState) (r : ResultM) (name : String)
    (i total : Nat)
    (hc : (goodSuccess r && decide (i < total) &&
      !(classifyUpdate s r name).storageFull) = true) :
    afterResult s r name i total =
      { classifyUpdate s r name with
          events := (classifyUpdate s r name).events ++ [RunEvent.cooldown i] } := by
  unfold afterResult
  rw [if_pos hc]

theorem afterResult_eq_neg (s : RunState) (r : ResultM) (name : String)
    (i total : Nat)
    (hc : ¬ ((goodSuccess r && decide (i < total) &&
      !(classifyUpdate s r name).storageFull) = true)) :
    afterResult s r name i total = classifyUpdate s r name := by
  unfold afterResult
  rw [if_neg hc]

theorem afterResult_storageFull (s : RunState) (r : ResultM) (name : String)
    (i total : Nat) :
    (afterResult s r name i total).storageFull = (s.storageFull || storageTrig r) := by
  by_cases hc : (goodSuccess r && decide (i < total) &&
      !(classifyUpdate s r name).storageFull) = true
  · rw [afterResult_eq_pos s r name i total hc]
    exact classifyUpdate_storageFull s r name
  · rw [afterResult_eq_neg s r name i total hc]
    exact classifyUpdate_storageFull s r name

theorem afterResult_events (s : RunState) (r : ResultM) (name : String)
    (i total : Nat) :
    ∃ extra, (afterResult s r name i total).events = s.events ++ extra ∧
      ∀ e ∈ extra, e = RunEvent.cooldown i ∨ ∃ n reason, e = RunEvent.addSkip n reason := by
  obtain ⟨ex1, he1, hm1⟩ := classifyUpdate_events s r name
  by_cases hc : (goodSuccess r && decide (i < total) &&
      !(classifyUpdate s r name).storageFull) = true
  · rw [afterResult_eq_pos s r name i total hc]
    refine ⟨ex1 ++ [RunEvent.cooldown i], ?_, ?_⟩
    · show (classifyUpdate s r name).events ++ [RunEvent.cooldown i] = _
      rw [he1, List.append_assoc]
    · intro e he
      rcases List.mem_append.mp he with h | h
      · exact Or.inr (hm1 e h)
      · simp only [List.mem_singleton] at h
        exact Or.inl h
  · rw [afterResult_eq_neg s r name i total hc]
    exact ⟨ex1, he1, fun e he => Or.inr (hm1 e he)⟩

theorem runLoop_events_decomp (o : String → ResultM) (sk : List String) (total : Nat) :
    ∀ (q : List String) (i : Nat) (s : RunState),
      ∃ d, (runLoop o sk total q i s).events = s.events ++ d ∧
        ∀ e ∈ d, ∀ j, eIdx e = some j → i ≤ j := by
  intro q
  induction q with
  | nil => exact fun i s => ⟨[], by simp [runLoop], by simp⟩
  | cons name rest ih =>
    intro i s
    by_cases hsf : s.storageFull = true
    · refine ⟨[], ?_, by simp⟩
      rw [runLoop_of_storageFull o sk total _ i s hsf]
      simp
    · have hsf2 : s.storageFull = false := Bool.eq_false_iff.mpr hsf
      by_cases hskip : name ∈ sk
      · obtain ⟨d, hd, hmem⟩ := ih (i + 1)
          { s with skippedCount := s.skippedCount + 1 }
        refine ⟨d, ?_, ?_⟩
        · rw [runLoop_cons_skip o sk total name rest i s hsf2 hskip]
          exact hd
        · intro e he j hj
          exact Nat.le_of_succ_le (hmem e he j hj)
      · obtain ⟨ex2, he2, hm2⟩ := afterResult_events
          { s with events := s.events ++
              [RunEvent.checkpoint i name, RunEvent.attempt i name] }
          (o name) name i total
        obtain ⟨d, hd, hmem⟩ := ih (i + 1)
          (afterResult
            { s with events := s.events ++
                [RunEvent.checkpoint i name, RunEvent.attempt i name] }
            (o name) name i total)
        refine ⟨[RunEvent.checkpoint i name, RunEvent.attempt i name] ++ ex2 ++ d, ?_, ?_⟩
        · rw [runLoop_cons_proc o sk total name rest i s hsf2 hskip, hd, he2]
          show s.events ++ [RunEvent.checkpoint i name, RunEvent.attempt i name]
              ++ ex2 ++ d = _
          simp [List.append_assoc]
        · intro e he j hj
          rcases List.mem_append.mp he with h | h
          · rcases List.mem_append.mp h with h2 | h2
            · simp only [List.mem_cons, List.not_mem_nil, or_false] at h2
              rcases h2 with h3 | h3
              · rw [h3] at hj
                simp only [eIdx, Option.some.injEq] at hj
                omega
              · rw [h3] at hj
                simp only [eIdx, Option.some.injEq] at hj
                omega
            · rcases hm2 e h2 with h3 | ⟨n, reason, h3⟩
              · rw [h3] at hj
                simp only [eIdx, Option.some.injEq] at hj
                omega
              · rw [h3] at hj
                simp [eIdx] at hj
          · exact Nat.le_of_succ_le (hmem e h j hj)

theorem runLoop_events_mono (o : String → ResultM) (sk : List String) (total : Nat)
    (q : List String) (i : Nat) (s : RunState) (e : RunEvent)
    (h : e ∈ s.events) : e ∈ (runLoop o sk total q i s).events := by
  obtain ⟨d, hd, _⟩ := runLoop_events_decomp o sk total q i s
  rw [hd]
  exact List.mem_append_left d h

/-- The events of one processed iteration, seen from the state handed to
the tail of the loop: an attempt event there is either an old one or this
iteration's own. -/
theorem attempt_mem_iter (s : RunState) (o : String → ResultM) (name : String)
    (i total k : Nat) (nm : String)
    (h : RunEvent.attempt k nm ∈ (afterResult
      { s with events := s.events ++
          [RunEvent.checkpoint i name, RunEvent.attempt i name] }
      (o name) name i total).events) :
    RunEvent.attempt k nm ∈ s.events ∨ (k = i ∧ nm = name) := by
  obtain ⟨ex2, he2, hm2⟩ := afterResult_events
    { s with events := s.events ++
        [RunEvent.checkpoint i name, RunEvent.attempt i name] }
    (o name) name i total
  rw [he2] at h
  rcases List.mem_append.mp h with h1 | h1
  · rcases List.mem_append.mp h1 with h2 | h2
    · exact Or.inl h2
    · simp only [List.mem_cons, List.not_mem_nil, or_false] at h2
      rcases h2 with h3 | h3
      · exact absurd h3 (by simp)
      · have := RunEvent.attempt.injEq k nm i name ▸ congrArg id h3
        refine Or.inr ?_
        have h4 := RunEvent.attempt.inj h3
        exact ⟨h4.1, h4.2⟩
  · rcases hm2 _ h1 with h3 | ⟨n, reason, h3⟩
    · exact absurd h3 (by simp)
    · exact absurd h3 (by simp)

theorem iter_self_attempt_mem (s : RunState) (o : String → ResultM) (name : String)
    (i total : Nat) :
    RunEvent.attempt i name ∈ (afterResult
      { s with events := s.events ++
          [RunEvent.checkpoint i name, RunEvent.attempt i name] }
      (o name) name i total).events := by
  obtain ⟨ex2, he2, hm2⟩ := afterResult_events
    { s with events := s.events ++
        [RunEvent.checkpoint i name, RunEvent.attempt i name] }
    (o name) name i total
  rw [he2]
  refine List.mem_append_left _ (List.mem_append_right _ ?_)
  simp

/-- A state whose indexed events all lie below `i` stays that way, one
iteration later, below `i + 1`. -/
theorem iter_events_bound (s : RunState) (o : String → ResultM) (name : String)
    (i total : Nat)
    (hb : ∀ e ∈ s.events, ∀ j, eIdx e = some j → j < i) :
    ∀ e ∈ (afterResult
      { s with events := s.events ++
          [RunEvent.checkpoint i name, RunEvent.attempt i name] }
      (o name) name i total).events, ∀ j, eIdx e = some j → j < i + 1 := by
  obtain ⟨ex2, he2, hm2⟩ := afterResult_events
    { s with events := s.events ++
        [RunEvent.checkpoint i name, RunEvent.attempt i name] }
    (o name) name i total
  rw [he2]
  intro e he j hj
  rcases List.mem_append.mp he with h1 | h1
  · rcases List.mem_append.mp h1 with h2 | h2
    · exact Nat.lt_succ_of_lt (hb e h2 j hj)
    · simp only [List.mem_cons, List.not_mem_nil, or_false] at h2
      rcases h2 with h3 | h3 <;>
        (rw [h3] at hj; simp only [eIdx, Option.some.injEq] at hj; omega)
  · rcases hm2 _ h1 with h3 | ⟨n, reason, h3⟩
    · rw [h3] at hj
      simp only [eIdx, Option.some.injEq] at hj
      omega
    · rw [h3] at hj
      simp [eIdx] at hj

/-- Once an attempted repository's failure is storage-full-classified,
the run-scoped flag halts the loop: every attempt in the whole run has an
index at most that repository's index. -/
theorem runLoop_storage_cap (o : String → ResultM) (sk : List String) (total : Nat) :
    ∀ (q : List String) (i : Nat) (s : RunState),
      (∀ e ∈ s.events, ∀ j, eIdx e = some j → j < i) →
      ∀ k nm, i ≤ k →
        RunEvent.attempt k nm ∈ (runLoop o sk total q i s).events →
        storageTrig (o nm) = true →
        ∀ m nm2, RunEvent.attempt m nm2 ∈ (runLoop o sk total q i s).events → m ≤ k := by
  intro q
  induction q with
  | nil =>
    intro i s hb k nm hik hatt htrig m nm2 hm
    exact absurd (hb _ hatt k rfl) (Nat.not_lt.mpr hik)
  | cons name rest ih =>
    intro i s hb k nm hik hatt htrig m nm2 hm
    by_cases hsf : s.storageFull = true
    · rw [runLoop_of_storageFull o sk total _ i s hsf] at hatt
      exact absurd (hb _ hatt k rfl) (Nat.not_lt.mpr hik)
    · have hsf2 : s.storageFull = false := Bool.eq_false_iff.mpr hsf
      by_cases hskip : name ∈ sk
      · rw [runLoop_cons_skip o sk total name rest i s hsf2 hskip] at hatt hm
        have hb2 : ∀ e ∈ ({ s with skippedCount := s.skippedCount + 1 } :
            RunState).events, ∀ j, eIdx e = some j → j < i + 1 :=
          fun e he j hj => Nat.lt_succ_of_lt (hb e he j hj)
        have hik2 : i + 1 ≤ k := by
          obtain ⟨d, hd, hdm⟩ := runLoop_events_decomp o sk total rest (i + 1)
            { s with skippedCount := s.skippedCount + 1 }
          rw [hd] at hatt
          rcases List.mem_append.mp hatt with h1 | h1
          · exact absurd (hb _ h1 k rfl) (Nat.not_lt.mpr hik)
          · exact hdm _ h1 k rfl
        exact ih (i + 1) _ hb2 k nm hik2 hatt htrig m nm2 hm
      · rw [runLoop_cons_proc o sk total name rest i s hsf2 hskip] at hatt hm
        have hb2 := iter_events_bound s o name i total hb
        obtain ⟨d, hd, hdm⟩ := runLoop_events_decomp o sk total rest (i + 1)
          (afterResult
            { s with events := s.events ++
                [RunEvent.checkpoint i name, RunEvent.attempt i name] }
            (o name) name i total)
        have hattd := hatt
        rw [hd] at hattd
        rcases List.mem_append.mp hattd with h1 | h1
        · -- the attempt is this iteration's own: the flag is set and the
          -- loop returns immediately, so every attempt has index ≤ i = k
          rcases attempt_mem_iter s o name i total k nm h1 with h2 | ⟨hk, hnm⟩
          · exact absurd (hb _ h2 k rfl) (Nat.not_lt.mpr hik)
          · subst hk
            subst hnm
            have hflag : (afterResult
                { s with events := s.events ++
                    [RunEvent.checkpoint k nm, RunEvent.attempt k nm] }
                (o nm) nm k total).storageFull = true := by
              rw [afterResult_storageFull]
              show (s.storageFull || storageTrig (o nm)) = true
              rw [hsf2, htrig]
              rfl
            rw [runLoop_of_storageFull o sk total rest (k + 1) _ hflag] at hm
            have := hb2 _ hm m rfl
            omega
        · have hik2 : i + 1 ≤ k := hdm _ h1 k rfl
          exact ih (i + 1) _ hb2 k nm hik2 hatt htrig m nm2 hm

theorem storageTrig_of_goodSuccess (r : ResultM) (h : goodSuccess r = true) :
    storageTrig r = false := by
  rcases r with ⟨su, sk2, del, em⟩
  simp only [goodSuccess, Bool.and_eq_true, Bool.not_eq_true'] at h
  obtain ⟨⟨h1, h2⟩, h3⟩ := h
  subst h1
  simp [storageTrig]

/-- The cooldown event of one processed iteration appears exactly when the
iteration's result is a genuine success and repositories remain. -/
theorem cooldown_mem_iter (s : RunState) (o : String → ResultM) (name : String)
    (i total : Nat)
    (hb : ∀ e ∈ s.events, ∀ j, eIdx e = some j → j < i)
    (hsf2 : s.storageFull = false) :
    (RunEvent.cooldown i ∈ (afterResult
      { s with events := s.events ++
          [RunEvent.checkpoint i name, RunEvent.attempt i name] }
      (o name) name i total).events) ↔
    (goodSuccess (o name) = true ∧ i < total) := by
  have hs3 : (classifyUpdate
      { s with events := s.events ++
          [RunEvent.checkpoint i name, RunEvent.attempt i name] }
      (o name) name).storageFull = storageTrig (o name) := by
    rw [classifyUpdate_storageFull]
    show (s.storageFull || storageTrig (o name)) = _
    rw [hsf2]
    exact Bool.false_or _
  by_cases hc : (goodSuccess (o name) && decide (i < total) &&
      !(classifyUpdate
        { s with events := s.events ++
            [RunEvent.checkpoint i name, RunEvent.attempt i name] }
        (o name) name).storageFull) = true
  · rw [afterResult_eq_pos _ _ _ _ _ hc]
    constructor
    · intro _
      rcases Bool.and_eq_true _ _ |>.mp hc with ⟨h1, _⟩
      rcases Bool.and_eq_true _ _ |>.mp h1 with ⟨h2, h3⟩
      exact ⟨h2, of_decide_eq_true h3⟩
    · intro _
      exact List.mem_append_right _ (by simp)
  · rw [afterResult_eq_neg _ _ _ _ _ hc]
    obtain ⟨ex1, he1, hm1⟩ := classifyUpdate_events
      { s with events := s.events ++
          [RunEvent.checkpoint i name, RunEvent.attempt i name] }
      (o name) name
    rw [he1]
    constructor
    · intro hmem
      exfalso
      rcases List.mem_append.mp hmem with h1 | h1
      · rcases List.mem_append.mp h1 with h2 | h2
        · exact absurd (hb _ h2 i rfl) (Nat.lt_irrefl i)
        · simp at h2
      · rcases hm1 _ h1 with ⟨n, reason, h3⟩
        simp at h3
    · rintro ⟨hg, hlt⟩
      exfalso
      apply hc
      rw [hs3, storageTrig_of_goodSuccess _ hg, hg, decide_eq_true hlt]
      rfl

/-- In the whole loop, an attempted repository incurs the cooldown exactly
when its result is a genuine success and it is not the last repository. -/
theorem runLoop_cooldown_iff (o : String → ResultM) (sk : List String) (total : Nat) :
    ∀ (q : List String) (i : Nat) (s : RunState),
      (∀ e ∈ s.events, ∀ j, eIdx e = some j → j < i) →
      s.storageFull = false →
      ∀ k nm, i ≤ k →
        RunEvent.attempt k nm ∈ (runLoop o sk total q i s).events →
        (RunEvent.cooldown k ∈ (runLoop o sk total q i s).events ↔
          (goodSuccess (o nm) = true ∧ k < total)) := by
  intro q
  induction q with
  | nil =>
    intro i s hb hsf2 k nm hik hatt
    exact absurd (hb _ hatt k rfl) (Nat.not_lt.mpr hik)
  | cons name rest ih =>
    intro i s hb hsf2 k nm hik hatt
    by_cases hskip : name ∈ sk
    · rw [runLoop_cons_skip o sk total name rest i s hsf2 hskip] at hatt ⊢
      have hb2 : ∀ e ∈ ({ s with skippedCount := s.skippedCount + 1 } :
          RunState).events, ∀ j, eIdx e = some j → j < i + 1 :=
        fun e he j hj => Nat.lt_succ_of_lt (hb e he j hj)
      have hik2 : i + 1 ≤ k := by
        obtain ⟨d, hd, hdm⟩ := runLoop_events_decomp o sk total rest (i + 1)
          { s with skippedCount := s.skippedCount + 1 }
        rw [hd] at hatt
        rcases List.mem_append.mp hatt with h1 | h1
        · exact absurd (hb _ h1 k rfl) (Nat.not_lt.mpr hik)
        · exact hdm _ h1 k rfl
      exact ih (i + 1) _ hb2 hsf2 k nm hik2 hatt
    · rw [runLoop_cons_proc o sk total name rest i s hsf2 hskip] at hatt ⊢
      have hb2 := iter_events_bound s o name i total hb
      by_cases hsb : (afterResult
          { s with events := s.events ++
              [RunEvent.checkpoint i name, RunEvent.attempt i name] }
          (o name) name i total).storageFull = true
      · rw [runLoop_of_storageFull o sk total rest (i + 1) _ hsb] at hatt ⊢
        have hki : k = i := by
          have := hb2 _ hatt k rfl
          omega
        subst hki
        have hnm : nm = name := by
          rcases attempt_mem_iter s o name k total k nm hatt with h2 | ⟨_, h3⟩
          · exact absurd (hb _ h2 k rfl) (Nat.lt_irrefl k)
          · exact h3
        subst hnm
        exact cooldown_mem_iter s o nm k total hb hsf2
      · have hsb2 : (afterResult
            { s with events := s.events ++
                [RunEvent.checkpoint i name, RunEvent.attempt i name] }
            (o name) name i total).storageFull = false := Bool.eq_false_iff.mpr hsb
        obtain ⟨d, hd, hdm⟩ := runLoop_events_decomp o sk total rest (i + 1)
          (afterResult
            { s with events := s.events ++
                [RunEvent.checkpoint i name, RunEvent.attempt i name] }
            (o name) name i total)
        have hattd := hatt
        rw [hd] at hattd
        rcases List.mem_append.mp hattd with h1 | h1
        · have hki : k = i := by
            have := hb2 _ h1 k rfl
            omega
          subst hki
          have hnm : nm = name := by
            rcases attempt_mem_iter s o name k total k nm h1 with h2 | ⟨_, h3⟩
            · exact absurd (hb _ h2 k rfl) (Nat.lt_irrefl k)
            · exact h3
          subst hnm
          rw [hd]
          have hbase := cooldown_mem_iter s o nm k total hb hsf2
          constructor
          · intro hcool
            rcases List.mem_append.mp hcool with h2 | h2
            · exact hbase.mp h2
            · exact absurd (hdm _ h2 k rfl) (by omega)
          · intro hgood
            exact List.mem_append_left _ (hbase.mpr hgood)
        · have hik2 : i + 1 ≤ k := hdm _ h1 k rfl
          exact ih (i + 1) _ hb2 hsb2 k nm hik2 hatt

/-- Every attempt event in the loop's log is preceded by its own
checkpoint event: the progress write happens before the backup call. -/
theorem runLoop_checkpoint_before (o : String → ResultM) (sk : List String)
    (total : Nat) :
    ∀ (q : List String) (i : Nat) (s : RunState),
      (∀ k nm, RunEvent.attempt k nm ∈ s.events →
        List.Sublist [RunEvent.checkpoint k nm, RunEvent.attempt k nm] s.events) →
      ∀ k nm, RunEvent.attempt k nm ∈ (runLoop o sk total q i s).events →
        List.Sublist [RunEvent.checkpoint k nm, RunEvent.attempt k nm]
          (runLoop o sk total q i s).events := by
  intro q
  induction q with
  | nil => exact fun i s hinv k nm hatt => hinv k nm hatt
  | cons name rest ih =>
    intro i s hinv k nm hatt
    by_cases hsf : s.storageFull = true
    · rw [runLoop_of_storageFull o sk total _ i s hsf] at hatt ⊢
      exact hinv k nm hatt
    · have hsf2 : s.storageFull = false := Bool.eq_false_iff.mpr hsf
      by_cases hskip : name ∈ sk
      · rw [runLoop_cons_skip o sk total name rest i s hsf2 hskip] at hatt ⊢
        exact ih (i + 1) { s with skippedCount := s.skippedCount + 1 } hinv k nm hatt
      · rw [runLoop_cons_proc o sk total name rest i s hsf2 hskip] at hatt ⊢
        refine ih (i + 1) _ ?_ k nm hatt
        intro k2 nm2 hatt2
        obtain ⟨ex2, he2, hm2⟩ := afterResult_events
          { s with events := s.events ++
              [RunEvent.checkpoint i name, RunEvent.attempt i name] }
          (o name) name i total
        rw [he2] at hatt2 ⊢
        rcases List.mem_append.mp hatt2 with h1 | h1
        · rcases List.mem_append.mp h1 with h2 | h2
          · exact ((hinv k2 nm2 h2).trans
              (List.sublist_append_left _ _)).trans (List.sublist_append_left _ _)
          · simp only [List.mem_cons, List.not_mem_nil, or_false] at h2
            rcases h2 with h3 | h3
            · exact absurd h3 (by simp)
            · obtain ⟨hk, hnm⟩ := RunEvent.attempt.inj h3
              subst hk
              subst hnm
              exact (List.sublist_append_right s.events _).trans
                (List.sublist_append_left _ _)
        · rcases hm2 _ h1 with h3 | ⟨n, reason, h3⟩
          · exact absurd h3 (by simp)
          · exact absurd h3 (by simp)

/-- Every attempt in the loop's log names a repository of the processed
queue (or was already in the incoming log). -/
theorem runLoop_attempt_name_mem (o : String → ResultM) (sk : List String)
    (total : Nat) :
    ∀ (q : List String) (i : Nat) (s : RunState) (k : Nat) (nm : String),
      RunEvent.attempt k nm ∈ (runLoop o sk total q i s).events →
      RunEvent.attempt k nm ∈ s.events ∨ nm ∈ q := by
  intro q
  induction q with
  | nil => exact fun i s k nm hatt => Or.inl hatt
  | cons name rest ih =>
    intro i s k nm hatt
    by_cases hsf : s.storageFull = true
    · rw [runLoop_of_storageFull o sk total _ i s hsf] at hatt
      exact Or.inl hatt
    · have hsf2 : s.storageFull = false := Bool.eq_false_iff.mpr hsf
      by_cases hskip : name ∈ sk
      · rw [runLoop_cons_skip o sk total name rest i s hsf2 hskip] at hatt
        rcases ih (i + 1) _ k nm hatt with h1 | h1
        · exact Or.inl h1
        · exact Or.inr (List.mem_cons_of_mem name h1)
      · rw [runLoop_cons_proc o sk total name rest i s hsf2 hskip] at hatt
        rcases ih (i + 1) _ k nm hatt with h1 | h1
        · rcases attempt_mem_iter s o name i total k nm h1 with h2 | ⟨_, hnm⟩
          · exact Or.inl h2
          · exact Or.inr (hnm ▸ List.mem_cons_self name rest)
        · exact Or.inr (List.mem_cons_of_mem name h1)

theorem classifyUpdate_events_disk (s : RunState) (r : ResultM) (name msg : String)
    (hf : failedWithMsg r msg) (hdk : isDiskError msg = true) :
    (classifyUpdate s r name).events =
      s.events ++ [RunEvent.addSkip name (diskSkipReason msg)] := by
  obtain ⟨h1, h2, h3, h4, h5⟩ := hf
  have h6 : (msg == "") = false := by
    simp [h5]
  unfold classifyUpdate
  rw [h1, h2, h3, h4]
  simp only [Bool.false_eq_true, if_false, h6, hdk, if_true]
  cases hst : isStorageFullError msg <;> rfl

theorem iter_addSkip_mem (s : RunState) (o : String → ResultM) (name : String)
    (i total : Nat) (msg : String)
    (hf : failedWithMsg (o name) msg) (hdk : isDiskError msg = true) :
    RunEvent.addSkip name (diskSkipReason msg) ∈ (afterResult
      { s with events := s.events ++
          [RunEvent.checkpoint i name, RunEvent.attempt i name] }
      (o name) name i total).events := by
  have hgs : goodSuccess (o name) = false := by
    unfold goodSuccess
    rw [hf.2.2.1]
    rfl
  have hc : ¬ ((goodSuccess (o name) && decide (i < total) &&
      !(classifyUpdate
        { s with events := s.events ++
            [RunEvent.checkpoint i name, RunEvent.attempt i name] }
        (o name) name).storageFull) = true) := by
    rw [hgs]
    simp
  rw [afterResult_eq_neg _ _ _ _ _ hc,
    classifyUpdate_events_disk _ _ _ _ hf hdk]
  exact List.mem_append_right _ (by simp)

/-- A disk-classified failure of an attempted repository always leaves its
persisted skip entry (with the truncated message) in the loop's log. -/
theorem runLoop_disk_addSkip (o : String → ResultM) (sk : List String)
    (total : Nat) :
    ∀ (q : List String) (i : Nat) (s : RunState),
      (∀ k nm msg, RunEvent.attempt k nm ∈ s.events →
        failedWithMsg (o nm) msg → isDiskError msg = true →
        RunEvent.addSkip nm (diskSkipReason msg) ∈ s.events) →
      ∀ k nm msg, RunEvent.attempt k nm ∈ (runLoop o sk total q i s).events →
        failedWithMsg (o nm) msg → isDiskError msg = true →
        RunEvent.addSkip nm (diskSkipReason msg) ∈ (runLoop o sk total q i s).events := by
  intro q
  induction q with
  | nil => exact fun i s hinv k nm msg hatt hf hdk => hinv k nm msg hatt hf hdk
  | cons name rest ih =>
    intro i s hinv k nm msg hatt hf hdk
    by_cases hsf : s.storageFull = true
    · rw [runLoop_of_storageFull o sk total _ i s hsf] at hatt ⊢
      exact hinv k nm msg hatt hf hdk
    · have hsf2 : s.storageFull = false := Bool.eq_false_iff.mpr hsf
      by_cases hskip : name ∈ sk
      · rw [runLoop_cons_skip o sk total name rest i s hsf2 hskip] at hatt ⊢
        exact ih (i + 1) { s with skippedCount := s.skippedCount + 1 }
          hinv k nm msg hatt hf hdk
      · rw [runLoop_cons_proc o sk total name rest i s hsf2 hskip] at hatt ⊢
        refine ih (i + 1) _ ?_ k nm msg hatt hf hdk
        intro k2 nm2 msg2 hatt2 hf2 hdk2
        rcases attempt_mem_iter s o name i total k2 nm2 hatt2 with h2 | ⟨_, hnm⟩
        · obtain ⟨ex2, he2, hm2⟩ := afterResult_events
            { s with events := s.events ++
                [RunEvent.checkpoint i name, RunEvent.attempt i name] }
            (o name) name i total
          rw [he2]
          exact List.mem_append_left _ (List.mem_append_left _
            (hinv k2 nm2 msg2 h2 hf2 hdk2))
        · subst hnm
          exact iter_addSkip_mem s o nm2 i total msg2 hf2 hdk2

theorem runLoop_attempt_idx_ge (o : String → ResultM) (sk : List String)
    (total : Nat) (q : List String) (i : Nat) (k : Nat) (nm : String)
    (h : RunEvent.attempt k nm ∈ (runLoop o sk total q i initRunState).events) :
    i ≤ k := by
  obtain ⟨d, hd, hdm⟩ := runLoop_events_decomp o sk total q i initRunState
  rw [hd] at h
  rcases List.mem_append.mp h with h1 | h1
  · simp [initRunState] at h1
  · exact hdm _ h1 k rfl

theorem findIdx_eq_of_nodup_get :
    ∀ (names : List String) (i : Nat) (nm : String), names.Nodup →
      names.get? i = some nm →
      names.findIdx? (fun n => n == nm) = some i := by
  intro names
  induction names with
  | nil =>
    intro i nm _ h
    simp at h
  | cons x xs ih =>
    intro i nm hnd hget
    cases i with
    | zero =>
      have hx : x = nm := by simpa using hget
      subst hx
      simp
    | succ i2 =>
      have hget2 : xs.get? i2 = some nm := by simpa using hget
      have hmem : nm ∈ xs := List.get?_mem hget2
      have hx : (x == nm) = false := by
        have hne : x ≠ nm := by
          intro he
          subst he
          exact (List.nodup_cons.mp hnd).1 hmem
        simp [hne]
      rw [List.findIdx?_cons, if_neg (by simp [hx]), List.findIdx?_succ,
        ih i2 nm (List.nodup_cons.mp hnd).2 hget2]
      rfl

theorem computeStartIndex_of_get (names : List String) (i : Nat) (nm : String)
    (hnd : names.Nodup) (hget : names.get? i = some nm) :
    computeStartIndex names nm = i + 1 := by
  unfold computeStartIndex
  rw [findIdx_eq_of_nodup_get names i nm hnd hget]

theorem not_mem_drop_of_nodup_get (names : List String) (i : Nat) (nm : String)
    (hnd : names.Nodup) (hget : names.get? i = some nm) :
    nm ∉ names.drop (i + 1) := by
  intro hmem
  have htk : nm ∈ names.take (i + 1) := by
    have hq : (names.take (i + 1)).get? i = some nm := by
      rw [List.get?_eq_getElem?, List.getElem?_take_of_lt (Nat.lt_succ_self i),
        ← List.get?_eq_getElem?]
      exact hget
    exact List.get?_mem hq
  have hnd2 : (names.take (i + 1) ++ names.drop (i + 1)).Nodup := by
    rw [List.take_append_drop]
    exact hnd
  exact List.disjoint_of_nodup_append hnd2 htk hmem

theorem storageTrig_true_of_storage_msg (r : ResultM) (msg : String)
    (hf : failedWithMsg r msg) (hst : isStorageFullError msg = true) :
    storageTrig r = true := by
  obtain ⟨h1, h2, h3, h4, h5⟩ := hf
  unfold storageTrig
  rw [h1, h2, h3, h4]
  simp [h5, hst]

theorem storageTrig_false_of_plain_msg (r : ResultM) (msg : String)
    (hf : failedWithMsg r msg) (hst : isStorageFullError msg = false) :
    storageTrig r = false := by
  obtain ⟨h1, h2, h3, h4, h5⟩ := hf
  unfold storageTrig
  rw [h4]
  simp [hst]

theorem goodSuccess_iff (r : ResultM) :
    goodSuccess r = true ↔
      (r.success = true ∧ r.skipped = false ∧ r.isDeleted = false) := by
  unfold goodSuccess
  simp [Bool.and_eq_true, Bool.not_eq_true', and_assoc]











/-- Counterexample to claim C1 as stated: the checkpoint written before
processing repository 0 (`a/x`) names `a/x`, so a crash during its
processing leaves `last_repo_full_name = "a/x"`; the resumed run computes
start index 1 (`idx + 1`) and its complete event log touches only `a/y` —
repository `a/x` is never processed again (at-most-once, not
at-least-once). -/
theorem resume_after_crash_skips_interrupted_repo_cex :
    computeStartIndex ["a/x", "a/y"] "a/x" = 1 ∧
    (runFrom oSkipAll [] ["a/x", "a/y"] 1).events =
      [RunEvent.checkpoint 2 "a/y", RunEvent.attempt 2 "a/y"] := by
  constructor
  · decide
  · decide

/-- Claim C1 (amended): the session checkpoint for repository `i` is
persisted before the repository is attempted (the checkpoint event always
precedes the attempt event in the log); but after a crash during
repository `i`, the resumed run starts at `i + 1`: the checkpointed
repository itself is never attempted again (at-most-once processing of
the interrupted repository, not at-least-once). -/
theorem checkpoint_precedes_attempt_and_resume_starts_after :
    (∀ (o : String → ResultM) (sk : List String) (total : Nat) (q : List String)
        (i k : Nat) (nm : String),
      RunEvent.attempt k nm ∈ (runLoop o sk total q i initRunState).events →
      List.Sublist [RunEvent.checkpoint k nm, RunEvent.attempt k nm]
        (runLoop o sk total q i initRunState).events) ∧
    (∀ (o : String → ResultM) (sk : List String) (names : List String)
        (i : Nat) (nm : String),
      names.Nodup → names.get? i = some nm →
      computeStartIndex names nm = i + 1 ∧
      ∀ k, RunEvent.attempt k nm ∉
        (runFrom o sk names (computeStartIndex names nm)).events) := by
  constructor
  · intro o sk total q i k nm hatt
    refine runLoop_checkpoint_before o sk total q i initRunState ?_ k nm hatt
    intro k2 nm2 h2
    simp [initRunState] at h2
  · intro o sk names i nm hnd hget
    refine ⟨computeStartIndex_of_get names i nm hnd hget, ?_⟩
    intro k hmem
    rw [computeStartIndex_of_get names i nm hnd hget] at hmem
    unfold runFrom at hmem
    rcases runLoop_attempt_name_mem o sk names.length (names.drop (i + 1))
      (i + 1 + 1) initRunState k nm hmem with h1 | h1
    · simp [initRunState] at h1
    · exact not_mem_drop_of_nodup_get names i nm hnd hget h1

/-- Witness for C1 (amended): in a concrete run, the attempt of `a/x` is
preceded by its checkpoint; and after a crash during repository 0 of
`["a/x", "a/y"]`, the resumed run starts at index 1 and never attempts
`a/x`. -/
theorem checkpoint_precedes_attempt_and_resume_starts_after_witness :
    List.Sublist [RunEvent.checkpoint 1 "a/x", RunEvent.attempt 1 "a/x"]
      (runLoop oGood [] 1 ["a/x"] 1 initRunState).events ∧
    computeStartIndex ["a/x", "a/y"] "a/x" = 1 ∧
    RunEvent.attempt 1 "a/x" ∉
      (runFrom oGood [] ["a/x", "a/y"] (computeStartIndex ["a/x", "a/y"] "a/x")).events :=
  ⟨checkpoint_precedes_attempt_and_resume_starts_after.1 oGood [] 1 ["a/x"] 1 1 "a/x"
      (by decide),
   (checkpoint_precedes_attempt_and_resume_starts_after.2 oGood [] ["a/x", "a/y"] 0
      "a/x" (by decide) rfl).1,
   (checkpoint_precedes_attempt_and_resume_starts_after.2 oGood [] ["a/x", "a/y"] 0
      "a/x" (by decide) rfl).2 1⟩

/-- Claim C5: once an attempted repository's failure message classifies as
remote-storage-exhaustion, the run-scoped flag stops the loop — every
attempt of the whole run (in particular every later one) has an index no
greater than that repository's. -/
theorem storage_full_error_stops_run (o : String → ResultM) (sk : List String)
    (total : Nat) (q : List String) (i k : Nat) (nm msg : String) (m : Nat)
    (nm2 : String)
    (hatt : RunEvent.attempt k nm ∈ (runLoop o sk total q i initRunState).events)
    (hf : failedWithMsg (o nm) msg)
    (hst : isStorageFullError msg = true)
    (hm : RunEvent.attempt m nm2 ∈ (runLoop o sk total q i initRunState).events) :
    m ≤ k := by
  refine runLoop_storage_cap o sk total q i initRunState ?_ k nm
    (runLoop_attempt_idx_ge o sk total q i k nm hatt) hatt
    (storageTrig_true_of_storage_msg (o nm) msg hf hst) m nm2 hm
  intro e he
  simp [initRunState] at he

/-- Witness for C5: with every repository failing on `quota exceeded`,
the only attempt of the run is the first repository. -/
theorem storage_full_error_stops_run_witness : (1 : Nat) ≤ 1 :=
  storage_full_error_stops_run oQuota [] 2 ["a/x", "a/y"] 1 1 "a/x"
    "quota exceeded" 1 "a/x" (by decide)
    ⟨rfl, rfl, rfl, rfl, by decide⟩ (by decide) (by decide)

/-- Claim C9: an attempted repository incurs the fixed cooldown exactly
when its outcome is a genuine successful backup (success, not skipped,
not deleted) and repositories remain in the queue. -/
theorem cooldown_iff_genuine_success (o : String → ResultM) (sk : List String)
    (names : List String) (startIndex k : Nat) (nm : String)
    (hatt : RunEvent.attempt k nm ∈ (runFrom o sk names startIndex).events) :
    (RunEvent.cooldown k ∈ (runFrom o sk names startIndex).events ↔
      ((o nm).success = true ∧ (o nm).skipped = false ∧ (o nm).isDeleted = false ∧
        k < names.length)) := by
  unfold runFrom at hatt ⊢
  have base := runLoop_cooldown_iff o sk names.length (names.drop startIndex)
    (startIndex + 1) initRunState
    (by intro e he; simp [initRunState] at he) rfl k nm
    (runLoop_attempt_idx_ge o sk names.length (names.drop startIndex)
      (startIndex + 1) k nm hatt) hatt
  rw [base, goodSuccess_iff]
  constructor
  · rintro ⟨⟨h1, h2, h3⟩, h4⟩
    exact ⟨h1, h2, h3, h4⟩
  · rintro ⟨h1, h2, h3, h4⟩
    exact ⟨⟨h1, h2, h3⟩, h4⟩

/-- Witness for C9: in an all-successful run over two repositories, the
first (non-final) repository incurs the cooldown. -/
theorem cooldown_iff_genuine_success_witness :
    RunEvent.cooldown 1 ∈ (runFrom oGood [] ["a/x", "a/y"] 0).events :=
  (cooldown_iff_genuine_success oGood [] ["a/x", "a/y"] 0 1 "a/x" (by decide)).mpr
    ⟨rfl, rfl, rfl, by decide⟩

/-- Counterexample to claim C4 as stated: the message
`"No space left on device"` matches the local disk keywords, but it also
contains `"no space"`, a remote-storage keyword — so after the skip entry
is written, the run-scoped flag stops the run: the complete event log of
a two-repository run shows the second repository is never attempted,
contradicting "the run continues to the next repository in the queue". -/
theorem disk_error_message_halts_run_cex :
    isDiskError "No space left on device" = true ∧
    isStorageFullError "No space left on device" = true ∧
    (runFrom oDiskFull [] ["a/x", "a/y"] 0).events =
      [RunEvent.checkpoint 1 "a/x", RunEvent.attempt 1 "a/x",
       RunEvent.addSkip "a/x" "磁盘空间不足: No space left on device"] ∧
    (runFrom oDiskFull [] ["a/x", "a/y"] 0).storageFull = true := by
  refine ⟨by decide, by decide, by decide, by decide⟩

/-- Claim C4 (amended): a repository whose backup fails with a message
matching the local resource-exhaustion keywords gets a persisted skip
entry whose reason is the fixed prefix plus the message truncated to 100
characters; the run then continues to the next repository in the queue
provided the message does not also match the remote-storage keywords —
if it does (as `"No space left on device"` does, via `"no space"`), no
further repository is attempted in that run. -/
theorem disk_error_adds_skip_and_continues_unless_storage :
    (∀ (o : String → ResultM) (sk : List String) (total : Nat) (q : List String)
        (i k : Nat) (nm msg : String),
      RunEvent.attempt k nm ∈ (runLoop o sk total q i initRunState).events →
      failedWithMsg (o nm) msg → isDiskError msg = true →
      RunEvent.addSkip nm (diskSkipReason msg) ∈
        (runLoop o sk total q i initRunState).events) ∧
    (∀ (o : String → ResultM) (sk : List String) (total : Nat)
        (name next : String) (rest : List String) (i : Nat) (msg : String),
      name ∉ sk → next ∉ sk →
      failedWithMsg (o name) msg → isDiskError msg = true →
      isStorageFullError msg = false →
      RunEvent.attempt (i + 1) next ∈
        (runLoop o sk total (name :: next :: rest) i initRunState).events) ∧
    (∀ (o : String → ResultM) (sk : List String) (total : Nat) (q : List String)
        (i k : Nat) (nm msg : String) (m : Nat) (nm2 : String),
      RunEvent.attempt k nm ∈ (runLoop o sk total q i initRunState).events →
      failedWithMsg (o nm) msg → isDiskError msg = true →
      isStorageFullError msg = true →
      RunEvent.attempt m nm2 ∈ (runLoop o sk total q i initRunState).events →
      m ≤ k) := by
  refine ⟨?_, ?_, ?_⟩
  · intro o sk total q i k nm msg hatt hf hdk
    refine runLoop_disk_addSkip o sk total q i initRunState ?_ k nm msg hatt hf hdk
    intro k2 nm2 msg2 h2
    simp [initRunState] at h2
  · intro o sk total name next rest i msg hn1 hn2 hf hdk hst
    rw [runLoop_cons_proc o sk total name (next :: rest) i initRunState rfl hn1]
    have hsA : (afterResult
        { initRunState with events := initRunState.events ++
            [RunEvent.checkpoint i name, RunEvent.attempt i name] }
        (o name) name i total).storageFull = false := by
      rw [afterResult_storageFull]
      show (initRunState.storageFull || storageTrig (o name)) = false
      rw [storageTrig_false_of_plain_msg (o name) msg hf hst]
      rfl
    rw [runLoop_cons_proc o sk total next rest (i + 1) _ hsA hn2]
    exact runLoop_events_mono o sk total rest (i + 1 + 1) _ _
      (iter_self_attempt_mem _ o next (i + 1) total)
  · intro o sk total q i k nm msg m nm2 hatt hf hdk hst hm
    refine runLoop_storage_cap o sk total q i initRunState ?_ k nm
      (runLoop_attempt_idx_ge o sk total q i k nm hatt) hatt
      (storageTrig_true_of_storage_msg (o nm) msg hf hst) m nm2 hm
    intro e he
    simp [initRunState] at he

/-- Witness for C4 (amended): an `ENOSPC` failure (disk-only, not a
remote-storage match) writes its truncated-reason skip entry and the run
attempts the next repository; a `quota exceeded` failure stops the run. -/
theorem disk_error_adds_skip_and_continues_unless_storage_witness :
    RunEvent.addSkip "a/x" (diskSkipReason "ENOSPC") ∈
      (runLoop oEnospc [] 2 ["a/x", "a/y"] 1 initRunState).events ∧
    RunEvent.attempt 2 "a/y" ∈
      (runLoop oEnospc [] 2 ["a/x", "a/y"] 1 initRunState).events ∧
    (1 : Nat) ≤ 1 :=
  ⟨disk_error_adds_skip_and_continues_unless_storage.1 oEnospc [] 2 ["a/x", "a/y"]
      1 1 "a/x" "ENOSPC" (by decide) ⟨rfl, rfl, rfl, rfl, by decide⟩ (by decide),
   disk_error_adds_skip_and_continues_unless_storage.2.1 oEnospc [] 2 "a/x" "a/y"
      [] 1 "ENOSPC" (by decide) (by decide) ⟨rfl, rfl, rfl, rfl, by decide⟩
      (by decide) (by decide),
   disk_error_adds_skip_and_continues_unless_storage.2.2 oDiskFull [] 2
      ["a/x", "a/y"] 1 1 "a/x" "No space left on device" 1 "a/x" (by decide)
      ⟨by decide, by decide, by decide, by decide, by decide⟩
      (by decide) (by decide) (by decide)⟩

/-! Lemmas about deduplication (claim C7). -/



theorem dedupGo_fst : ∀ (rs : List (String × String)) (seen : List String)
    (db : DedupDB), (dedupGo rs seen db).1 = firstOccAux seen (rs.map Prod.fst) := by
  intro rs
  induction rs with
  | nil => intro seen db; rfl
  | cons p rest ih =>
    intro seen db
    rcases p with ⟨name, user⟩
    show (dedupGo rest _ _).1 = firstOccAux _ (name :: rest.map Prod.fst)
    rw [ih]
    rfl

theorem firstOccAux_eq : ∀ (ns : List String) (seen : List String),
    firstOccAux seen ns =
      seen ++ firstOccurrences (ns.filter (fun n => decide (n ∉ seen))) := by
  intro ns
  induction ns with
  | nil => intro seen; simp [firstOccAux, firstOccurrences]
  | cons n ns2 ih =>
    intro seen
    by_cases hn : n ∈ seen
    · have hd : (decide (n ∉ seen)) = false := by simp [hn]
      show firstOccAux (if n ∈ seen then seen else seen ++ [n]) ns2 = _
      rw [if_pos hn, ih seen]
      congr 2
      rw [List.filter_cons]
      simp [hd]
    · have hd : (decide (n ∉ seen)) = true := by simp [hn]
      show firstOccAux (if n ∈ seen then seen else seen ++ [n]) ns2 = _
      rw [if_neg hn, ih (seen ++ [n])]
      have hfil : ns2.filter (fun m => decide (m ∉ seen ++ [n])) =
          (ns2.filter (fun m => decide (m ∉ seen))).filter (fun y => !(y == n)) := by
        rw [List.filter_filter]
        refine List.filter_congr ?_
        intro m _
        by_cases h1 : m ∈ seen <;> by_cases h2 : m = n <;> simp [h1, h2]
      rw [hfil]
      have hlist : (n :: ns2.filter (fun m => decide (m ∉ seen))) =
          [n] ++ ns2.filter (fun m => decide (m ∉ seen)) := rfl
      rw [List.filter_cons]
      simp only [hd, if_true]
      rw [List.append_assoc]
      congr 1
      symm
      rw [firstOccurrences]
      rfl

theorem mem_firstOccurrences : ∀ (l : List String) (a : String),
    a ∈ firstOccurrences l ↔ a ∈ l := by
  intro l
  induction l using firstOccurrences.induct with
  | case1 =>
    intro a
    rw [firstOccurrences]
  | case2 x xs ih =>
    intro a
    rw [firstOccurrences]
    by_cases hax : a = x
    · subst hax
      simp
    · simp only [List.mem_cons, ih, List.mem_filter]
      constructor
      · rintro (h | ⟨h1, _⟩)
        · exact Or.inl h
        · exact Or.inr h1
      · rintro (h | h1)
        · exact Or.inl h
        · refine Or.inr ⟨h1, ?_⟩
          simp [hax]

theorem nodup_firstOccurrences : ∀ (l : List String), (firstOccurrences l).Nodup := by
  intro l
  induction l using firstOccurrences.induct with
  | case1 =>
    rw [firstOccurrences]
    exact List.nodup_nil
  | case2 x xs ih =>
    rw [firstOccurrences]
    refine List.nodup_cons.mpr ⟨?_, ih⟩
    intro hmem
    rw [mem_firstOccurrences] at hmem
    rcases List.mem_filter.mp hmem with ⟨_, h2⟩
    simp at h2

theorem toFinset_firstOccurrences (l : List String) :
    (firstOccurrences l).toFinset = l.toFinset := by
  apply Finset.ext
  intro a
  rw [List.mem_toFinset, List.mem_toFinset, mem_firstOccurrences]

theorem length_firstOccurrences (l : List String) :
    (firstOccurrences l).length = l.toFinset.card := by
  rw [← List.toFinset_card_of_nodup (nodup_firstOccurrences l),
    toFinset_firstOccurrences]

theorem saveRepositoryD_starEdges (db : DedupDB) (name : String) :
    (saveRepositoryD db name).starEdges = db.starEdges := by
  unfold saveRepositoryD
  split <;> rfl

theorem addStarSource_self_mem (db : DedupDB) (name user : String) :
    (name, user) ∈ (addStarSource db name user).starEdges := by
  unfold addStarSource
  split
  · assumption
  · simp

theorem addStarSource_mono (db : DedupDB) (name user : String)
    (e : String × String) (h : e ∈ db.starEdges) :
    e ∈ (addStarSource db name user).starEdges := by
  unfold addStarSource
  split
  · exact h
  · exact List.mem_append_left _ h

theorem dedupGo_starEdges_mono : ∀ (rs : List (String × String))
    (seen : List String) (db : DedupDB) (e : String × String),
    e ∈ db.starEdges → e ∈ (dedupGo rs seen db).2.starEdges := by
  intro rs
  induction rs with
  | nil => exact fun seen db e h => h
  | cons p rest ih =>
    intro seen db e h
    rcases p with ⟨name, user⟩
    have hred : dedupGo ((name, user) :: rest) seen db =
        dedupGo rest (if name ∈ seen then seen else seen ++ [name])
          (addStarSource (saveRepositoryD db name) name user) := rfl
    rw [hred]
    refine ih _ _ e ?_
    refine addStarSource_mono _ name user e ?_
    rw [saveRepositoryD_starEdges]
    exact h

theorem dedupGo_starEdges_all : ∀ (rs : List (String × String))
    (seen : List String) (db : DedupDB) (p : String × String), p ∈ rs →
    p ∈ (dedupGo rs seen db).2.starEdges := by
  intro rs
  induction rs with
  | nil =>
    intro seen db p h
    simp at h
  | cons q rest ih =>
    intro seen db p h
    rcases q with ⟨name, user⟩
    have hred : dedupGo ((name, user) :: rest) seen db =
        dedupGo rest (if name ∈ seen then seen else seen ++ [name])
          (addStarSource (saveRepositoryD db name) name user) := rfl
    rw [hred]
    rcases List.mem_cons.mp h with h1 | h1
    · subst h1
      exact dedupGo_starEdges_mono rest _ _ _
        (addStarSource_self_mem (saveRepositoryD db name) name user)
    · exact ih _ _ p h1

/-- Claim C7: `_deduplicate_repos` returns the queue of distinct
`full_name`s in first-occurrence order (each `full_name`'s first
occurrence across the account lists, accounts in configured order); the
queue has no duplicates, contains exactly the input names, its length is
the number of distinct names, and every (repository, account) input pair
is recorded as a star-source edge regardless of which account contributed
the first occurrence. -/
theorem dedup_queue_first_occurrence_and_star_edges
    (rs : List (String × String)) (db : DedupDB) :
    (deduplicateRepos rs db).1 = firstOccurrences (rs.map Prod.fst) ∧
    (deduplicateRepos rs db).1.Nodup ∧
    (∀ n, n ∈ (deduplicateRepos rs db).1 ↔ n ∈ rs.map Prod.fst) ∧
    (deduplicateRepos rs db).1.length = (rs.map Prod.fst).toFinset.card ∧
    (∀ p ∈ rs, p ∈ (deduplicateRepos rs db).2.starEdges) := by
  have hq : (deduplicateRepos rs db).1 = firstOccurrences (rs.map Prod.fst) := by
    unfold deduplicateRepos
    rw [dedupGo_fst rs [] db, firstOccAux_eq]
    have : (rs.map Prod.fst).filter (fun n => decide (n ∉ ([] : List String))) =
        rs.map Prod.fst := by
      refine List.filter_congr ?_ |>.trans (List.filter_true _)
      intro x _
      simp
    rw [this]
    rfl
  refine ⟨hq, ?_, ?_, ?_, ?_⟩
  · rw [hq]
    exact nodup_firstOccurrences _
  · intro n
    rw [hq]
    exact mem_firstOccurrences _ n
  · rw [hq]
    exact length_firstOccurrences _
  · intro p hp
    exact dedupGo_starEdges_all rs [] db p hp

/-- Witness for C7: two accounts starring overlapping sets produce a queue
containing each starred repository, and every (repository, account) edge
is recorded — including the duplicate-account edge. -/
theorem dedup_queue_first_occurrence_and_star_edges_witness :
    ("a/y" ∈ (deduplicateRepos [("a/x", "u1"), ("a/y", "u1"), ("a/x", "u2")]
      { reposSaved := [], starEdges := [] }).1) ∧
    ("a/x", "u2") ∈ (deduplicateRepos [("a/x", "u1"), ("a/y", "u1"), ("a/x", "u2")]
      { reposSaved := [], starEdges := [] }).2.starEdges :=
  ⟨((dedup_queue_first_occurrence_and_star_edges
      [("a/x", "u1"), ("a/y", "u1"), ("a/x", "u2")]
      { reposSaved := [], starEdges := [] }).2.2.1 "a/y").mpr (by decide),
   (dedup_queue_first_occurrence_and_star_edges
      [("a/x", "u1"), ("a/y", "u1"), ("a/x", "u2")]
      { reposSaved := [], starEdges := [] }).2.2.2.2 ("a/x", "u2") (by decide)⟩

end StarBackup
